import Mathlib

/-!
Verification of the database-structure report generator (src/db.py).

The script connects to a MySQL database, enumerates the tables, and for
each table runs four catalog queries (DESCRIBE, the KEY_COLUMN_USAGE
foreign-key query, SHOW INDEX, SHOW CREATE TABLE), writing a fixed-layout
UTF-8 text document.  Database errors (mysql.connector.Error) are caught
per table; any other exception (notably UnicodeDecodeError raised by the
inline .decode calls) propagates and aborts the run.

The embedding below models:
  - Python values that flow through the script as a sum type PyVal
    (text / byte sequence / integer / None), with Python truthiness and
    str() interpolation;
  - the strict UTF-8 decoding performed by bytes.decode, as a
    byte-list decoder, together with a codepoint encoder used to state
    round-trip properties;
  - each f.write call of the script as one emitted chunk, so a run
    produces an ordered list of string chunks whose concatenation is the
    file content;
  - the whole script as a function from a description of the database
    answers (ScriptInput) to a RunResult recording the emitted chunks,
    the resource-release flags and the uncaught exception, if any.
-/

/-- Python values reaching the script from the MySQL driver: already
decoded text, raw byte sequences (bytes), integers, or None. -/
inductive PyVal where
  | str (s : String)
  | bytes (b : List Nat)
  | int (n : Int)
  | none
  deriving DecidableEq, Repr

/-- Uncaught Python exceptions the script can die with: a UTF-8 decode
failure from bytes.decode, a database error escaping the per-table
handler (possible only before the loop, at SHOW TABLES), or an index
error from subscripting an empty sequence. -/
inductive PyErr where
  | unicodeDecodeError (b : List Nat)
  | dbError (msg : String)
  | indexError
  deriving DecidableEq, Repr

/-- Decidable equality for Except, needed to evaluate concrete runs of
the embedded script with decide. -/
instance {e a : Type} [DecidableEq e] [DecidableEq a] : DecidableEq (Except e a) := fun x y =>
  match x, y with
  | .ok u, .ok v =>
    if h : u = v then .isTrue (by rw [h]) else .isFalse (by simp [h])
  | .error u, .error v =>
    if h : u = v then .isTrue (by rw [h]) else .isFalse (by simp [h])
  | .ok _, .error _ => .isFalse (by simp)
  | .error _, .ok _ => .isFalse (by simp)

/-- Python truthiness (bool(v)) for the value types the script handles. -/
def PyVal.truthy : PyVal → Bool
  | .str s => !s.isEmpty
  | .bytes b => !b.isEmpty
  | .int n => n != 0
  | .none => false

/-- Lower hex digit for the bytes repr below. -/
def hexDigit (n : Nat) : Char :=
  if n < 10 then Char.ofNat (48 + n) else Char.ofNat (87 + n)

/-- Repr of a single byte inside a Python bytes literal (printable ASCII
shown verbatim, the rest escaped).  Only used by PyVal.pyStr on the
bytes branch, which no reachable path of the script exercises: every
value is passed through the decode-if-bytes pattern before it is
interpolated into an f-string. -/
def pyByteRepr (n : Nat) : String :=
  if n = 9 then "\\t"
  else if n = 10 then "\\n"
  else if n = 13 then "\\r"
  else if n = 39 then String.mk ['\\', Char.ofNat 39]
  else if n = 92 then "\\\\"
  else if 32 ≤ n ∧ n < 127 then String.mk [Char.ofNat n]
  else String.mk ['\\', 'x', hexDigit (n / 16), hexDigit (n % 16)]

/-- Python str(v), as used by f-string interpolation in the script. -/
def PyVal.pyStr : PyVal → String
  | .str s => s
  | .bytes b => String.mk ['b', Char.ofNat 39] ++ String.join (b.map pyByteRepr) ++ String.mk [Char.ofNat 39]
  | .int n => toString n
  | .none => "None"

/-- Continuation byte test for strict UTF-8 decoding. -/
def contByte (b : Nat) : Prop := 0x80 ≤ b ∧ b < 0xC0

instance (b : Nat) : Decidable (contByte b) := by
  unfold contByte; infer_instance

/-- Decoding step of the strict utf-8 codec: given the lead byte and
the remaining bytes, produce the codepoint of the first encoded
character and the bytes after it.  This models one character step of
CPython's strict utf-8 codec, the one invoked by every .decode call in
the script: 2-byte leads are C2..DF, 3- and 4-byte sequences are
validated through their decoded value (rejecting overlong forms,
surrogates and values above 0x10FFFF). -/
def decodeOne (b0 : Nat) (bs : List Nat) : Option (Nat × List Nat) :=
  if b0 < 0x80 then some (b0, bs)
  else if b0 < 0xE0 then
    match bs with
    | b1 :: bs1 =>
      if 0xC2 ≤ b0 ∧ contByte b1 then some ((b0 - 0xC0) * 64 + (b1 - 0x80), bs1)
      else Option.none
    | [] => Option.none
  else if b0 < 0xF0 then
    match bs with
    | b1 :: b2 :: bs1 =>
      if contByte b1 ∧ contByte b2 then
        if 0x800 ≤ (b0 - 0xE0) * 4096 + (b1 - 0x80) * 64 + (b2 - 0x80) ∧
            ¬(0xD800 ≤ (b0 - 0xE0) * 4096 + (b1 - 0x80) * 64 + (b2 - 0x80) ∧
              (b0 - 0xE0) * 4096 + (b1 - 0x80) * 64 + (b2 - 0x80) < 0xE000) then
          some ((b0 - 0xE0) * 4096 + (b1 - 0x80) * 64 + (b2 - 0x80), bs1)
        else Option.none
      else Option.none
    | _ => Option.none
  else
    match bs with
    | b1 :: b2 :: b3 :: bs1 =>
      if b0 < 0xF5 ∧ contByte b1 ∧ contByte b2 ∧ contByte b3 then
        if 0x10000 ≤ (b0 - 0xF0) * 262144 + (b1 - 0x80) * 4096 + (b2 - 0x80) * 64 + (b3 - 0x80) ∧
            (b0 - 0xF0) * 262144 + (b1 - 0x80) * 4096 + (b2 - 0x80) * 64 + (b3 - 0x80) < 0x110000 then
          some ((b0 - 0xF0) * 262144 + (b1 - 0x80) * 4096 + (b2 - 0x80) * 64 + (b3 - 0x80), bs1)
        else Option.none
      else Option.none
    | _ => Option.none

/-- Iterated decoding with structural fuel; each step strictly consumes
at least the lead byte, so any fuel of at least the length of the byte
list yields the full decoding (see decodeCpsF_irrel below). -/
def decodeCpsF : Nat → List Nat → Option (List Nat)
  | _, [] => some []
  | 0, _ :: _ => Option.none
  | fuel + 1, b0 :: bs =>
    match decodeOne b0 bs with
    | Option.none => Option.none
    | some (n, rest) => (decodeCpsF fuel rest).map (n :: ·)

/-- Strict UTF-8 decoder over a list of bytes, producing the list of
decoded codepoints. -/
def decodeCps (bs : List Nat) : Option (List Nat) := decodeCpsF bs.length bs

/-- Decode a byte list to text: bytes.decode with the utf-8 codec. -/
def decodeUtf8 (b : List Nat) : Option String :=
  (decodeCps b).map (fun cps => String.mk (cps.map Char.ofNat))

/-- UTF-8 encoding of one codepoint. -/
def utf8EncodeCp (n : Nat) : List Nat :=
  if n < 0x80 then [n]
  else if n < 0x800 then [0xC0 + n / 64, 0x80 + n % 64]
  else if n < 0x10000 then [0xE0 + n / 4096, 0x80 + n / 64 % 64, 0x80 + n % 64]
  else [0xF0 + n / 262144, 0x80 + n / 4096 % 64, 0x80 + n / 64 % 64, 0x80 + n % 64]

/-- UTF-8 encoding of a text value, used to state the normalizer
round-trip property. -/
def utf8Encode (s : String) : List Nat :=
  (s.data.map (fun c => utf8EncodeCp c.toNat)).flatten

/-- Decoding that raises: models b.decode("utf-8") where a failure is a
UnicodeDecodeError exception. -/
def decodeStrE (b : List Nat) : Except PyErr String :=
  match decodeUtf8 b with
  | some s => .ok s
  | Option.none => .error (.unicodeDecodeError b)

/-- Value normalization pattern used throughout the script:
x.decode("utf-8") if isinstance(x, bytes) else x.  Bytes are decoded
(possibly raising), all other values - including None - pass through
unchanged. -/
def decodeIfBytes (v : PyVal) : Except PyErr PyVal :=
  match v with
  | .bytes b => (PyVal.str ·) <$> decodeStrE b
  | v => .ok v

/-- Raw row returned by DESCRIBE: the script reads positions 0..5
(Field, Type, Null, Key, Default, Extra). -/
structure ColRow where
  f0 : PyVal
  f1 : PyVal
  f2 : PyVal
  f3 : PyVal
  f4 : PyVal
  f5 : PyVal
  deriving DecidableEq, Repr

/-- Raw row returned by the KEY_COLUMN_USAGE query: positions 0..3 are
COLUMN_NAME, CONSTRAINT_NAME, REFERENCED_TABLE_NAME,
REFERENCED_COLUMN_NAME. -/
structure FkRow where
  f0 : PyVal
  f1 : PyVal
  f2 : PyVal
  f3 : PyVal
  deriving DecidableEq, Repr

/-- Raw row returned by SHOW INDEX: the script reads position 1
(Non_unique), position 2 (Key_name) and position 4 (Column_name); the
other positions are never touched and are not modelled. -/
structure IdxRow where
  f1 : PyVal
  f2 : PyVal
  f4 : PyVal
  deriving DecidableEq, Repr

/-- Raw row returned by SHOW CREATE TABLE: the script reads position 1
(the Create Table text). -/
structure CreateRow where
  f1 : PyVal
  deriving DecidableEq, Repr

/-- Answers of the four per-table catalog queries for one table; an
error value stands for the cursor raising mysql.connector.Error (the
message is what str(err) yields in the error block). -/
structure TableQueries where
  describe : Except String (List ColRow)
  fks : Except String (List FkRow)
  indexes : Except String (List IdxRow)
  create : Except String CreateRow

/-- Banner of 50 equal signs followed by the blank line, as written by
f.write("=" * 50 + "\n\n"). -/
def eqBanner : String := String.mk (List.replicate 50 '=') ++ "\n\n"

/-- Banner of 50 dashes followed by the blank line, as written by
f.write("-" * 50 + "\n\n") under each table header. -/
def dashBanner : String := String.mk (List.replicate 50 '-') ++ "\n\n"

/-- Null token of a column line (line 43 of the source): the literal
NOT NULL exactly when the raw Null cell compares equal to the text
value NO under the Python equality test; any other value - including
the byte sequence NO - yields NULL. -/
def nullTok (v : PyVal) : String := if v = .str "NO" then "NOT NULL" else "NULL"

/-- Key token of a column line (line 44): the condition is
isinstance(cell, bytes) and cell, so only a non-empty byte sequence is
decoded; any text (or other) value yields the empty token. -/
def keyTokE (v : PyVal) : Except PyErr String :=
  match v with
  | .bytes b => if (PyVal.bytes b).truthy then decodeStrE b else .ok ""
  | _ => .ok ""

/-- Default token of a column line (line 45): present exactly when the
raw Default cell is not None, in which case the cell is decoded if it
is a byte sequence and interpolated after the DEFAULT prefix. -/
def defTokE (v : PyVal) : Except PyErr String :=
  if v = PyVal.none then .ok ""
  else (fun w : PyVal => "DEFAULT " ++ w.pyStr) <$> decodeIfBytes v

/-- Extra token of a column line (line 46): same guard as the key
token. -/
def extraTokE (v : PyVal) : Except PyErr String :=
  match v with
  | .bytes b => if (PyVal.bytes b).truthy then decodeStrE b else .ok ""
  | _ => .ok ""

/-- Rendering of one column line (lines 41-48 of the source): each of
the six raw cells is turned into a token exactly as the script does,
and the tokens are written in one f.write with single spaces between
the fields, a two-space indent and a trailing newline.  A decode
failure at any cell raises. -/
def colLine (c : ColRow) : Except PyErr String := do
  let nm ← decodeIfBytes c.f0
  let ty ← decodeIfBytes c.f1
  let keyTok ← keyTokE c.f3
  let defTok ← defTokE c.f4
  let extraTok ← extraTokE c.f5
  pure ("  " ++ nm.pyStr ++ " " ++ ty.pyStr ++ " " ++ nullTok c.f2 ++ " " ++ keyTok
    ++ " " ++ defTok ++ " " ++ extraTok ++ "\n")

/-- Per-column write loop: one chunk per column line, stopping (with the
already written chunks preserved) at the first raising cell. -/
def writeColLines : List ColRow → List String × Option PyErr
  | [] => ([], Option.none)
  | c :: cs =>
    match colLine c with
    | .error e => ([], some e)
    | .ok l =>
      match writeColLines cs with
      | (ls, e) => (l :: ls, e)

/-- Columns section (lines 39-50): the header chunk, the column lines,
and - only when the loop completes - the closing blank-line chunk. -/
def colSection (cs : List ColRow) : List String × Option PyErr :=
  match writeColLines cs with
  | (ls, Option.none) => ("Колонки:\n" :: ls ++ ["\n"], Option.none)
  | (ls, some e) => ("Колонки:\n" :: ls, some e)

/-- Rendering of one foreign-key line (lines 62-67): the four cells are
decoded in order, then written as one chunk. -/
def fkLine (t : PyVal) (r : FkRow) : Except PyErr String := do
  let colName ← decodeIfBytes r.f0
  let constraintName ← decodeIfBytes r.f1
  let refTable ← decodeIfBytes r.f2
  let refCol ← decodeIfBytes r.f3
  pure ("  " ++ constraintName.pyStr ++ ": " ++ t.pyStr ++ "." ++ colName.pyStr
    ++ " -> " ++ refTable.pyStr ++ "." ++ refCol.pyStr ++ "\n")

/-- Per-foreign-key write loop, one chunk per line. -/
def writeFkLines (t : PyVal) : List FkRow → List String × Option PyErr
  | [] => ([], Option.none)
  | r :: rs =>
    match fkLine t r with
    | .error e => ([], some e)
    | .ok l =>
      match writeFkLines t rs with
      | (ls, e) => (l :: ls, e)

/-- Foreign-keys section (lines 60-69): emitted only when the row list
is truthy (non-empty); the closing blank line only when the loop
completed. -/
def fkSection (t : PyVal) (rs : List FkRow) : List String × Option PyErr :=
  if rs.isEmpty then ([], Option.none)
  else
    match writeFkLines t rs with
    | (ls, Option.none) => ("Внешние ключи:\n" :: ls ++ ["\n"], Option.none)
    | (ls, some e) => ("Внешние ключи:\n" :: ls, some e)

/-- Insertion into the insertion-ordered dictionary used by the index
grouping loop (lines 77-82): an already present key keeps its position
and gets the row appended to its bucket; a fresh key is appended at the
end with a singleton bucket. -/
def dictAdd (d : List (PyVal × List IdxRow)) (n : PyVal) (r : IdxRow) :
    List (PyVal × List IdxRow) :=
  if d.any (fun p => p.1 = n) then
    d.map (fun p => if p.1 = n then (p.1, p.2 ++ [r]) else p)
  else d ++ [(n, [r])]

/-- Index grouping loop (lines 77-82): decodes each row's index name and
inserts the raw row into the dictionary; a decode failure raises before
anything of the index section is written. -/
def groupIdx : List IdxRow → List (PyVal × List IdxRow) →
    Except PyErr (List (PyVal × List IdxRow))
  | [], d => .ok d
  | r :: rs, d => do
    let n ← decodeIfBytes r.f2
    groupIdx rs (dictAdd d n r)

/-- Rendering of one index line (lines 85-92): uniqueness is the
negation of the truthiness of position 1 of the first row of the
bucket; the participating column names are decoded bucket rows in
order, joined with comma-space. -/
def idxLine (n : PyVal) (bucket : List IdxRow) : Except PyErr String :=
  match bucket with
  | [] => .error .indexError
  | r0 :: _ => do
    let uniq : String := if !r0.f1.truthy then "UNIQUE" else ""
    let cols ← bucket.mapM (fun r => PyVal.pyStr <$> decodeIfBytes r.f4)
    pure ("  " ++ n.pyStr ++ " " ++ uniq ++ ": (" ++ String.intercalate ", " cols ++ ")\n")

/-- Per-group write loop of the index section, one chunk per line. -/
def writeIdxLines : List (PyVal × List IdxRow) → List String × Option PyErr
  | [] => ([], Option.none)
  | g :: gs =>
    match idxLine g.1 g.2 with
    | .error e => ([], some e)
    | .ok l =>
      match writeIdxLines gs with
      | (ls, e) => (l :: ls, e)

/-- Indexes section (lines 75-94): only for a truthy row list; the
grouping happens before the section header is written, so a decode
failure during grouping emits nothing at all. -/
def idxSection (rs : List IdxRow) : List String × Option PyErr :=
  if rs.isEmpty then ([], Option.none)
  else
    match groupIdx rs [] with
    | .error e => ([], some e)
    | .ok gs =>
      match writeIdxLines gs with
      | (ls, Option.none) => ("Индексы:\n" :: ls ++ ["\n"], Option.none)
      | (ls, some e) => ("Индексы:\n" :: ls, some e)

/-- Creation-statement section (lines 97-101): the cell at position 1 is
decoded before either chunk is written. -/
def createSection (row : CreateRow) : List String × Option PyErr :=
  match decodeIfBytes row.f1 with
  | .error e => ([], some e)
  | .ok v => (["SQL создания таблицы:\n", v.pyStr ++ ";\n\n"], Option.none)

/-- Error block written by the except handler (lines 105-106). -/
def errChunk (t : PyVal) (msg : String) : String :=
  "Ошибка при обработке таблицы " ++ t.pyStr ++ ": " ++ msg ++ "\n\n"

/-- Header chunk written at line 32 before any query for the table. -/
def headerChunk (t : PyVal) : String := "ТАБЛИЦА: " ++ t.pyStr ++ "\n"

/-- Processing of one table (the body of the for loop, lines 31-107):
the header and dash banner are written first, then the four queries are
run in order with their sections; a query error jumps to the except
handler, which appends the error block and the closing banner and lets
the loop continue; a decode failure stops everything, keeping the
chunks already written.  The result is the list of chunks this table
contributed together with the uncaught exception, if any. -/
def processTable (t : PyVal) (q : TableQueries) : List String × Option PyErr :=
  let hdr := [headerChunk t, dashBanner]
  match q.describe with
  | .error m => (hdr ++ [errChunk t m, eqBanner], Option.none)
  | .ok cols =>
    match colSection cols with
    | (c1, some e) => (hdr ++ c1, some e)
    | (c1, Option.none) =>
      match q.fks with
      | .error m => (hdr ++ c1 ++ [errChunk t m, eqBanner], Option.none)
      | .ok fks =>
        match fkSection t fks with
        | (c2, some e) => (hdr ++ c1 ++ c2, some e)
        | (c2, Option.none) =>
          match q.indexes with
          | .error m => (hdr ++ c1 ++ c2 ++ [errChunk t m, eqBanner], Option.none)
          | .ok idxs =>
            match idxSection idxs with
            | (c3, some e) => (hdr ++ c1 ++ c2 ++ c3, some e)
            | (c3, Option.none) =>
              match q.create with
              | .error m => (hdr ++ c1 ++ c2 ++ c3 ++ [errChunk t m, eqBanner], Option.none)
              | .ok row =>
                match createSection row with
                | (c4, some e) => (hdr ++ c1 ++ c2 ++ c3 ++ c4, some e)
                | (c4, Option.none) => (hdr ++ c1 ++ c2 ++ c3 ++ c4 ++ [eqBanner], Option.none)

/-- Description of the database's answers for a whole run: the SHOW
TABLES result (first cell of each row) and, for every table name as
interpolated into the per-table queries, the four per-table answers. -/
structure ScriptInput where
  showTables : Except String (List PyVal)
  db : String → TableQueries

/-- Observable outcome of a run: whether the output file was opened and
whether it was closed again, the chunks written to it (in order; the
file content is their concatenation), whether cursor.close() and
conn.close() executed, and the uncaught exception, if any. -/
structure RunResult where
  fileAcquired : Bool
  fileReleased : Bool
  output : List String
  cursorClosed : Bool
  connClosed : Bool
  exc : Option PyErr
  deriving DecidableEq, Repr

/-- Table-name normalization (lines 17-22): each SHOW TABLES cell is
decoded if it is a byte sequence and kept as is otherwise; a decode
failure raises before the output file is even opened. -/
def normTables : List PyVal → Except PyErr (List PyVal)
  | [] => .ok []
  | v :: vs => do
    let t ← decodeIfBytes v
    let ts ← normTables vs
    .ok (t :: ts)

/-- The for loop over the normalized table names (lines 30-107): each
table contributes its chunks; the first uncaught exception stops the
loop, keeping what was already written. -/
def writeTables (db : String → TableQueries) : List PyVal → List String × Option PyErr
  | [] => ([], Option.none)
  | t :: ts =>
    match processTable t (db t.pyStr) with
    | (cs, some e) => (cs, some e)
    | (cs, Option.none) =>
      match writeTables db ts with
      | (rest, e) => (cs ++ rest, e)

/-- Title chunks written before the loop (lines 27-28). -/
def titleChunks : List String := ["СТРУКТУРА БАЗЫ ДАННЫХ\n", eqBanner]

/-- The whole script: SHOW TABLES (an error there is uncaught), the
name normalization (same), then the with-open block writing the title,
the opening banner and every table, and finally - only when nothing
raised - the print and the two close() calls.  The with statement
closes the file on every path on which it was opened; cursor.close()
and conn.close() are plain trailing statements and run only when no
exception is propagating. -/
def runScript (inp : ScriptInput) : RunResult :=
  match inp.showTables with
  | .error m =>
    { fileAcquired := false, fileReleased := false, output := [],
      cursorClosed := false, connClosed := false, exc := some (.dbError m) }
  | .ok raw =>
    match normTables raw with
    | .error e =>
      { fileAcquired := false, fileReleased := false, output := [],
        cursorClosed := false, connClosed := false, exc := some e }
    | .ok tables =>
      match writeTables inp.db tables with
      | (chunks, some e) =>
        { fileAcquired := true, fileReleased := true, output := titleChunks ++ chunks,
          cursorClosed := false, connClosed := false, exc := some e }
      | (chunks, Option.none) =>
        { fileAcquired := true, fileReleased := true, output := titleChunks ++ chunks,
          cursorClosed := true, connClosed := true, exc := Option.none }


/-- Marker prefix of the error block written by the except handler. -/
def errMarker : String := "Ошибка при обработке таблицы "

/-- Chunk classification: an emitted chunk is an error block iff it
starts with the marker prefix of the except handler. -/
def isErrChunk (s : String) : Bool := errMarker.data.isPrefixOf s.data

/-- Truth of: at least one of the four per-table catalog queries
answers with a database error. -/
def queryFails (q : TableQueries) : Bool :=
  (match q.describe with | .error _ => true | .ok _ => false) ||
  (match q.fks with | .error _ => true | .ok _ => false) ||
  (match q.indexes with | .error _ => true | .ok _ => false) ||
  (match q.create with | .error _ => true | .ok _ => false)

/-- First-occurrence deduplication of a list, excluding an initial set
of already seen keys; describes the key order of the insertion-ordered
dictionary built by the index grouping loop. -/
def firstDedupExcl (seen : List PyVal) : List PyVal → List PyVal
  | [] => []
  | n :: ns => if n ∈ seen then firstDedupExcl seen ns else n :: firstDedupExcl (n :: seen) ns

/-- Foreign-key line format as the specification words it:
constraint, colon, table dot column, arrow, referenced table dot
referenced column. -/
def specFkLine (cstr tbl col rt rc : String) : String :=
  cstr ++ ": " ++ tbl ++ "." ++ col ++ " -> " ++ rt ++ "." ++ rc

/-!  Helper lemmas: the strict UTF-8 codec round-trips on encodings. -/

set_option maxRecDepth 4000 in
theorem decodeOne_length (b0 : Nat) (bs : List Nat) (n : Nat) (rest : List Nat)
    (h : decodeOne b0 bs = some (n, rest)) : rest.length ≤ bs.length := by
  unfold decodeOne at h
  repeat' split at h
  all_goals cases h
  all_goals simp
  all_goals omega

theorem decodeCpsF_irrel (fuel : Nat) : ∀ fuel2 bs, bs.length ≤ fuel → bs.length ≤ fuel2 →
    decodeCpsF fuel bs = decodeCpsF fuel2 bs := by
  induction fuel with
  | zero =>
    intro fuel2 bs h1 h2
    match bs with
    | [] => cases fuel2 <;> rfl
  | succ fuel ih =>
    intro fuel2 bs h1 h2
    match bs with
    | [] => cases fuel2 <;> rfl
    | b0 :: bs1 =>
      cases fuel2 with
      | zero => simp at h2
      | succ fuel2 =>
        simp only [decodeCpsF]
        cases hd : decodeOne b0 bs1 with
        | none => rfl
        | some p =>
          obtain ⟨n, rest⟩ := p
          have hl := decodeOne_length b0 bs1 n rest hd
          simp only [List.length_cons] at h1 h2
          dsimp only
          rw [ih fuel2 rest (by omega) (by omega)]

theorem decodeOne_encodeCp (n : Nat) (h : Nat.isValidChar n) (rest : List Nat) :
    ∃ b0 tail, utf8EncodeCp n = b0 :: tail ∧ decodeOne b0 (tail ++ rest) = some (n, rest) := by
  have hup : n < 0x110000 := by
    rcases h with h | h
    · omega
    · exact h.2
  have hs : n < 0xD800 ∨ 0xDFFF < n := by
    rcases h with h | h
    · exact Or.inl h
    · exact Or.inr h.1
  by_cases h1 : n < 0x80
  · refine ⟨n, [], by rw [utf8EncodeCp, if_pos h1], ?_⟩
    simp only [decodeOne, List.nil_append]
    rw [if_pos h1]
  · by_cases h2 : n < 0x800
    · refine ⟨0xC0 + n / 64, [0x80 + n % 64], by rw [utf8EncodeCp, if_neg h1, if_pos h2], ?_⟩
      simp only [decodeOne, List.cons_append, List.nil_append]
      rw [if_neg (by omega), if_pos (by omega),
        if_pos (⟨by omega, by omega, by omega⟩ : 0xC2 ≤ 0xC0 + n / 64 ∧ contByte (0x80 + n % 64))]
      simp only [Option.some.injEq, Prod.mk.injEq]
      refine ⟨by omega, by trivial⟩
    · by_cases h3 : n < 0x10000
      · refine ⟨0xE0 + n / 4096, [0x80 + n / 64 % 64, 0x80 + n % 64],
          by rw [utf8EncodeCp, if_neg h1, if_neg h2, if_pos h3], ?_⟩
        simp only [decodeOne, List.cons_append, List.nil_append]
        rw [if_neg (by omega), if_neg (by omega), if_pos (by omega),
          if_pos (⟨⟨by omega, by omega⟩, by omega, by omega⟩ :
            contByte (0x80 + n / 64 % 64) ∧ contByte (0x80 + n % 64))]
        rcases hs with hs | hs
        · rw [if_pos (by constructor <;> omega)]
          simp only [Option.some.injEq, Prod.mk.injEq]
          refine ⟨by omega, by trivial⟩
        · rw [if_pos (by constructor <;> omega)]
          simp only [Option.some.injEq, Prod.mk.injEq]
          refine ⟨by omega, by trivial⟩
      · refine ⟨0xF0 + n / 262144, [0x80 + n / 4096 % 64, 0x80 + n / 64 % 64, 0x80 + n % 64],
          by rw [utf8EncodeCp, if_neg h1, if_neg h2, if_neg h3], ?_⟩
        simp only [decodeOne, List.cons_append, List.nil_append]
        rw [if_neg (by omega), if_neg (by omega), if_neg (by omega),
          if_pos (⟨by omega, ⟨by omega, by omega⟩, ⟨by omega, by omega⟩, by omega, by omega⟩ :
            0xF0 + n / 262144 < 0xF5 ∧ contByte (0x80 + n / 4096 % 64) ∧
              contByte (0x80 + n / 64 % 64) ∧ contByte (0x80 + n % 64))]
        rw [if_pos (by constructor <;> omega)]
        simp only [Option.some.injEq, Prod.mk.injEq]
        refine ⟨by omega, by trivial⟩

theorem decodeCps_encode (cps : List Nat) (rest : List Nat)
    (h : ∀ n, n ∈ cps → Nat.isValidChar n) :
    decodeCps ((cps.map utf8EncodeCp).flatten ++ rest) = (decodeCps rest).map (cps ++ ·) := by
  induction cps with
  | nil =>
    simp only [List.map_nil, List.flatten_nil, List.nil_append]
    cases decodeCps rest <;> rfl
  | cons n cps1 ih =>
    obtain ⟨b0, tail, henc, hdec⟩ :=
      decodeOne_encodeCp n (h n (List.mem_cons_self n cps1)) ((cps1.map utf8EncodeCp).flatten ++ rest)
    simp only [List.map_cons, List.flatten_cons, henc, List.cons_append, List.append_assoc]
    rw [decodeCps]
    simp only [List.length_cons, decodeCpsF]
    rw [hdec]
    dsimp only
    rw [decodeCpsF_irrel (tail ++ ((cps1.map utf8EncodeCp).flatten ++ rest)).length
      ((cps1.map utf8EncodeCp).flatten ++ rest).length ((cps1.map utf8EncodeCp).flatten ++ rest)
      (by simp) (by omega)]
    rw [show decodeCpsF ((cps1.map utf8EncodeCp).flatten ++ rest).length
      ((cps1.map utf8EncodeCp).flatten ++ rest) =
      decodeCps ((cps1.map utf8EncodeCp).flatten ++ rest) from rfl]
    rw [ih (fun m hm => h m (List.mem_cons_of_mem n hm))]
    cases decodeCps rest <;> rfl

theorem decodeUtf8_encode (s : String) : decodeUtf8 (utf8Encode s) = some s := by
  have hval : ∀ n, n ∈ s.data.map Char.toNat → Nat.isValidChar n := by
    intro n hn
    obtain ⟨c, _, rfl⟩ := List.mem_map.mp hn
    exact c.valid
  have h1 : decodeCps (utf8Encode s) = some (s.data.map Char.toNat) := by
    have h2 := decodeCps_encode (s.data.map Char.toNat) [] hval
    rw [show decodeCps [] = some [] from rfl] at h2
    simp only [List.map_map, List.append_nil, Option.map_some', List.append_nil] at h2
    exact h2
  rw [decodeUtf8, h1]
  simp only [Option.map_some', List.map_map, Option.some.injEq]
  have hco : (Char.ofNat ∘ Char.toNat) = id := by
    funext c
    exact Char.ofNat_toNat c
  rw [hco, List.map_id]

theorem isErrChunk_errChunk (t : PyVal) (m : String) : isErrChunk (errChunk t m) = true := by
  unfold isErrChunk errChunk errMarker
  apply List.isPrefixOf_iff_prefix.mpr
  simp only [String.data_append]
  rw [List.append_assoc, List.append_assoc, List.append_assoc]
  exact List.prefix_append _ _

theorem isErrChunk_cons_ne (c : Char) (cs : List Char) (s : String)
    (h : s.data = c :: cs) (hc : ('О' == c) = false) : isErrChunk s = false := by
  unfold isErrChunk
  rw [h, show errMarker.data = 'О' :: "шибка при обработке таблицы ".data from rfl]
  simp [List.isPrefixOf, hc]

theorem isErrChunk_indent (x : String) : isErrChunk ("  " ++ x) = false := by
  apply isErrChunk_cons_ne ' ' (' ' :: x.data)
  · rw [String.data_append]
    rfl
  · decide

example : isErrChunk "Колонки:\n" = false := by decide

example : isErrChunk dashBanner = false := by decide

example : isErrChunk eqBanner = false := by decide

example : isErrChunk "\n" = false := by decide

theorem bindOk {α β : Type} {e : Except PyErr α} {f : α → Except PyErr β} {b : β}
    (h : (e >>= f) = .ok b) : ∃ a, e = .ok a ∧ f a = .ok b := by
  cases e with
  | error err => exact absurd h (by simp [Bind.bind, Except.bind])
  | ok a => exact ⟨a, rfl, by simpa [Bind.bind, Except.bind] using h⟩

theorem colLine_inv (c : ColRow) (l : String) (h : colLine c = .ok l) :
    ∃ nm ty kt dt et, decodeIfBytes c.f0 = .ok nm ∧ decodeIfBytes c.f1 = .ok ty ∧
      keyTokE c.f3 = .ok kt ∧ defTokE c.f4 = .ok dt ∧ extraTokE c.f5 = .ok et ∧
      l = "  " ++ nm.pyStr ++ " " ++ ty.pyStr ++ " " ++ nullTok c.f2 ++ " " ++ kt
        ++ " " ++ dt ++ " " ++ et ++ "\n" := by
  unfold colLine at h
  obtain ⟨nm, h0, h⟩ := bindOk h
  obtain ⟨ty, h1, h⟩ := bindOk h
  obtain ⟨kt, h3, h⟩ := bindOk h
  obtain ⟨dt, h4, h⟩ := bindOk h
  obtain ⟨et, h5, h⟩ := bindOk h
  simp only [pure, Except.pure, Except.ok.injEq] at h
  exact ⟨nm, ty, kt, dt, et, h0, h1, h3, h4, h5, h.symm⟩

theorem colLine_eq (c : ColRow) (nm ty : PyVal) (kt dt et : String)
    (h0 : decodeIfBytes c.f0 = .ok nm) (h1 : decodeIfBytes c.f1 = .ok ty)
    (h3 : keyTokE c.f3 = .ok kt) (h4 : defTokE c.f4 = .ok dt) (h5 : extraTokE c.f5 = .ok et) :
    colLine c = .ok ("  " ++ nm.pyStr ++ " " ++ ty.pyStr ++ " " ++ nullTok c.f2 ++ " " ++ kt
      ++ " " ++ dt ++ " " ++ et ++ "\n") := by
  unfold colLine
  rw [h0, h1, h3, h4, h5]
  rfl

theorem isErrChunk_false_head (s : String) (h : s.data.head? ≠ some 'О') : isErrChunk s = false := by
  unfold isErrChunk
  rw [show errMarker.data = 'О' :: "шибка при обработке таблицы ".data from rfl]
  cases hd : s.data with
  | nil => rfl
  | cons c cs =>
    rw [hd] at h
    simp only [List.head?] at h
    have hc : ('О' == c) = false := beq_eq_false_iff_ne.mpr (fun hh => h (by rw [hh]))
    simp [List.isPrefixOf, hc]

theorem colLine_head (c : ColRow) (l : String) (h : colLine c = .ok l) :
    l.data.head? = some ' ' := by
  obtain ⟨nm, ty, kt, dt, et, _, _, _, _, _, hl⟩ := colLine_inv c l h
  subst hl
  simp [String.data_append]

theorem writeColLines_ok (cs : List ColRow) (ls : List String)
    (h : writeColLines cs = (ls, Option.none)) :
    List.Forall₂ (fun c l => colLine c = .ok l) cs ls := by
  induction cs generalizing ls with
  | nil =>
    unfold writeColLines at h
    cases h
    exact .nil
  | cons c cs ih =>
    unfold writeColLines at h
    cases hc : colLine c with
    | error e =>
      rw [hc] at h
      cases h
    | ok l =>
      rw [hc] at h
      cases hp : writeColLines cs with
      | mk ls1 e1 =>
        rw [hp] at h
        cases h
        exact .cons hc (ih ls1 hp)

theorem writeColLines_mem (cs : List ColRow) :
    ∀ l ∈ (writeColLines cs).1, ∃ c, colLine c = .ok l := by
  induction cs with
  | nil =>
    intro l hl
    cases hl
  | cons c cs ih =>
    intro l hl
    unfold writeColLines at hl
    cases hc : colLine c with
    | error e =>
      rw [hc] at hl
      cases hl
    | ok l0 =>
      rw [hc] at hl
      cases hp : writeColLines cs with
      | mk ls1 e1 =>
        rw [hp] at hl
        simp only [List.mem_cons] at hl
        rcases hl with rfl | hl
        · exact ⟨c, hc⟩
        · exact ih l (by rw [hp]; exact hl)

theorem fkLine_inv (t : PyVal) (r : FkRow) (l : String) (h : fkLine t r = .ok l) :
    ∃ cn cstr rt rc, decodeIfBytes r.f0 = .ok cn ∧ decodeIfBytes r.f1 = .ok cstr ∧
      decodeIfBytes r.f2 = .ok rt ∧ decodeIfBytes r.f3 = .ok rc ∧
      l = "  " ++ cstr.pyStr ++ ": " ++ t.pyStr ++ "." ++ cn.pyStr ++ " -> "
        ++ rt.pyStr ++ "." ++ rc.pyStr ++ "\n" := by
  unfold fkLine at h
  obtain ⟨cn, h0, h⟩ := bindOk h
  obtain ⟨cstr, h1, h⟩ := bindOk h
  obtain ⟨rt, h2, h⟩ := bindOk h
  obtain ⟨rc, h3, h⟩ := bindOk h
  simp only [pure, Except.pure, Except.ok.injEq] at h
  exact ⟨cn, cstr, rt, rc, h0, h1, h2, h3, h.symm⟩

theorem fkLine_eq (t : PyVal) (r : FkRow) (cn cstr rt rc : PyVal)
    (h0 : decodeIfBytes r.f0 = .ok cn) (h1 : decodeIfBytes r.f1 = .ok cstr)
    (h2 : decodeIfBytes r.f2 = .ok rt) (h3 : decodeIfBytes r.f3 = .ok rc) :
    fkLine t r = .ok ("  " ++ cstr.pyStr ++ ": " ++ t.pyStr ++ "." ++ cn.pyStr ++ " -> "
      ++ rt.pyStr ++ "." ++ rc.pyStr ++ "\n") := by
  unfold fkLine
  rw [h0, h1, h2, h3]
  rfl

theorem fkLine_head (t : PyVal) (r : FkRow) (l : String) (h : fkLine t r = .ok l) :
    l.data.head? = some ' ' := by
  obtain ⟨cn, cstr, rt, rc, _, _, _, _, hl⟩ := fkLine_inv t r l h
  subst hl
  simp [String.data_append]

theorem idxLine_inv (n : PyVal) (bkt : List IdxRow) (l : String) (h : idxLine n bkt = .ok l) :
    ∃ r0 rs cols, bkt = r0 :: rs ∧
      bkt.mapM (fun r => PyVal.pyStr <$> decodeIfBytes r.f4) = .ok cols ∧
      l = "  " ++ n.pyStr ++ " " ++ (if !r0.f1.truthy then "UNIQUE" else "") ++ ": ("
        ++ String.intercalate ", " cols ++ ")\n" := by
  match bkt with
  | [] =>
    unfold idxLine at h
    cases h
  | r0 :: rs =>
    unfold idxLine at h
    obtain ⟨cols, h1, h⟩ := bindOk h
    simp only [pure, Except.pure, Except.ok.injEq] at h
    exact ⟨r0, rs, cols, rfl, h1, h.symm⟩

theorem idxLine_head (n : PyVal) (bkt : List IdxRow) (l : String) (h : idxLine n bkt = .ok l) :
    l.data.head? = some ' ' := by
  obtain ⟨r0, rs, cols, _, _, hl⟩ := idxLine_inv n bkt l h
  subst hl
  simp [String.data_append]

theorem writeFkLines_ok (t : PyVal) (rs : List FkRow) (ls : List String)
    (h : writeFkLines t rs = (ls, Option.none)) :
    List.Forall₂ (fun r l => fkLine t r = .ok l) rs ls := by
  induction rs generalizing ls with
  | nil =>
    unfold writeFkLines at h
    cases h
    exact .nil
  | cons r rs ih =>
    unfold writeFkLines at h
    cases hc : fkLine t r with
    | error e =>
      rw [hc] at h
      cases h
    | ok l =>
      rw [hc] at h
      cases hp : writeFkLines t rs with
      | mk ls1 e1 =>
        rw [hp] at h
        cases h
        exact .cons hc (ih ls1 hp)

theorem writeFkLines_mem (t : PyVal) (rs : List FkRow) :
    ∀ l ∈ (writeFkLines t rs).1, ∃ r, fkLine t r = .ok l := by
  induction rs with
  | nil =>
    intro l hl
    cases hl
  | cons r rs ih =>
    intro l hl
    unfold writeFkLines at hl
    cases hc : fkLine t r with
    | error e =>
      rw [hc] at hl
      cases hl
    | ok l0 =>
      rw [hc] at hl
      cases hp : writeFkLines t rs with
      | mk ls1 e1 =>
        rw [hp] at hl
        simp only [List.mem_cons] at hl
        rcases hl with rfl | hl
        · exact ⟨r, hc⟩
        · exact ih l (by rw [hp]; exact hl)

theorem writeIdxLines_ok (gs : List (PyVal × List IdxRow)) (ls : List String)
    (h : writeIdxLines gs = (ls, Option.none)) :
    List.Forall₂ (fun g l => idxLine g.1 g.2 = .ok l) gs ls := by
  induction gs generalizing ls with
  | nil =>
    unfold writeIdxLines at h
    cases h
    exact .nil
  | cons g gs ih =>
    unfold writeIdxLines at h
    cases hc : idxLine g.1 g.2 with
    | error e =>
      rw [hc] at h
      cases h
    | ok l =>
      rw [hc] at h
      cases hp : writeIdxLines gs with
      | mk ls1 e1 =>
        rw [hp] at h
        cases h
        exact .cons hc (ih ls1 hp)

theorem writeIdxLines_mem (gs : List (PyVal × List IdxRow)) :
    ∀ l ∈ (writeIdxLines gs).1, ∃ g : PyVal × List IdxRow, idxLine g.1 g.2 = .ok l := by
  induction gs with
  | nil =>
    intro l hl
    cases hl
  | cons g gs ih =>
    intro l hl
    unfold writeIdxLines at hl
    cases hc : idxLine g.1 g.2 with
    | error e =>
      rw [hc] at hl
      cases hl
    | ok l0 =>
      rw [hc] at hl
      cases hp : writeIdxLines gs with
      | mk ls1 e1 =>
        rw [hp] at hl
        simp only [List.mem_cons] at hl
        rcases hl with rfl | hl
        · exact ⟨g, hc⟩
        · exact ih l (by rw [hp]; exact hl)

theorem isErrChunk_space (l : String) (h : l.data.head? = some ' ') : isErrChunk l = false := by
  apply isErrChunk_false_head
  rw [h]
  intro hc
  cases hc

theorem colSection_noErr (cs : List ColRow) :
    ∀ l ∈ (colSection cs).1, isErrChunk l = false := by
  intro l hl
  unfold colSection at hl
  cases hp : writeColLines cs with
  | mk ls e =>
    rw [hp] at hl
    have hmem : ∀ x ∈ ls, isErrChunk x = false := by
      intro x hx
      obtain ⟨c, hc⟩ := writeColLines_mem cs x (by rw [hp]; exact hx)
      exact isErrChunk_space x (colLine_head c x hc)
    cases e with
    | none =>
      dsimp only at hl
      rcases List.mem_cons.mp hl with rfl | hl2
      · decide
      rcases List.mem_append.mp hl2 with hl3 | hl4
      · exact hmem l hl3
      · rw [List.mem_singleton.mp hl4]
        decide
    | some e1 =>
      dsimp only at hl
      rcases List.mem_cons.mp hl with rfl | hl2
      · decide
      · exact hmem l hl2

theorem fkSection_noErr (t : PyVal) (rs : List FkRow) :
    ∀ l ∈ (fkSection t rs).1, isErrChunk l = false := by
  intro l hl
  unfold fkSection at hl
  split at hl
  · cases hl
  · cases hp : writeFkLines t rs with
    | mk ls e =>
      rw [hp] at hl
      have hmem : ∀ x ∈ ls, isErrChunk x = false := by
        intro x hx
        obtain ⟨r, hr⟩ := writeFkLines_mem t rs x (by rw [hp]; exact hx)
        exact isErrChunk_space x (fkLine_head t r x hr)
      cases e with
      | none =>
        dsimp only at hl
        rcases List.mem_cons.mp hl with rfl | hl2
        · decide
        rcases List.mem_append.mp hl2 with hl3 | hl4
        · exact hmem l hl3
        · rw [List.mem_singleton.mp hl4]
          decide
      | some e1 =>
        dsimp only at hl
        rcases List.mem_cons.mp hl with rfl | hl2
        · decide
        · exact hmem l hl2

theorem idxSection_noErr (rs : List IdxRow) :
    ∀ l ∈ (idxSection rs).1, isErrChunk l = false := by
  intro l hl
  unfold idxSection at hl
  split at hl
  · cases hl
  · cases hg : groupIdx rs [] with
    | error e =>
      rw [hg] at hl
      cases hl
    | ok gs =>
      rw [hg] at hl
      dsimp only at hl
      cases hp : writeIdxLines gs with
      | mk ls e =>
        rw [hp] at hl
        have hmem : ∀ x ∈ ls, isErrChunk x = false := by
          intro x hx
          obtain ⟨g, hgl⟩ := writeIdxLines_mem gs x (by rw [hp]; exact hx)
          exact isErrChunk_space x (idxLine_head g.1 g.2 x hgl)
        cases e with
        | none =>
          dsimp only at hl
          rcases List.mem_cons.mp hl with rfl | hl2
          · decide
          rcases List.mem_append.mp hl2 with hl3 | hl4
          · exact hmem l hl3
          · rw [List.mem_singleton.mp hl4]
            decide
        | some e1 =>
          dsimp only at hl
          rcases List.mem_cons.mp hl with rfl | hl2
          · decide
          · exact hmem l hl2

theorem processTable_spec (t : PyVal) (q : TableQueries) :
    (∃ m, q.describe = .error m ∧
        processTable t q = ([headerChunk t, dashBanner, errChunk t m, eqBanner], Option.none))
  ∨ (∃ cols c1 e, q.describe = .ok cols ∧ colSection cols = (c1, some e) ∧
        processTable t q = ([headerChunk t, dashBanner] ++ c1, some e))
  ∨ (∃ cols c1 m, q.describe = .ok cols ∧ colSection cols = (c1, Option.none) ∧
        q.fks = .error m ∧
        processTable t q = ([headerChunk t, dashBanner] ++ c1 ++ [errChunk t m, eqBanner], Option.none))
  ∨ (∃ cols c1 fks c2 e, q.describe = .ok cols ∧ colSection cols = (c1, Option.none) ∧
        q.fks = .ok fks ∧ fkSection t fks = (c2, some e) ∧
        processTable t q = ([headerChunk t, dashBanner] ++ c1 ++ c2, some e))
  ∨ (∃ cols c1 fks c2 m, q.describe = .ok cols ∧ colSection cols = (c1, Option.none) ∧
        q.fks = .ok fks ∧ fkSection t fks = (c2, Option.none) ∧ q.indexes = .error m ∧
        processTable t q = ([headerChunk t, dashBanner] ++ c1 ++ c2 ++ [errChunk t m, eqBanner],
          Option.none))
  ∨ (∃ cols c1 fks c2 idxs c3 e, q.describe = .ok cols ∧ colSection cols = (c1, Option.none) ∧
        q.fks = .ok fks ∧ fkSection t fks = (c2, Option.none) ∧ q.indexes = .ok idxs ∧
        idxSection idxs = (c3, some e) ∧
        processTable t q = ([headerChunk t, dashBanner] ++ c1 ++ c2 ++ c3, some e))
  ∨ (∃ cols c1 fks c2 idxs c3 m, q.describe = .ok cols ∧ colSection cols = (c1, Option.none) ∧
        q.fks = .ok fks ∧ fkSection t fks = (c2, Option.none) ∧ q.indexes = .ok idxs ∧
        idxSection idxs = (c3, Option.none) ∧ q.create = .error m ∧
        processTable t q = ([headerChunk t, dashBanner] ++ c1 ++ c2 ++ c3 ++ [errChunk t m, eqBanner],
          Option.none))
  ∨ (∃ cols c1 fks c2 idxs c3 row c4 e, q.describe = .ok cols ∧ colSection cols = (c1, Option.none) ∧
        q.fks = .ok fks ∧ fkSection t fks = (c2, Option.none) ∧ q.indexes = .ok idxs ∧
        idxSection idxs = (c3, Option.none) ∧ q.create = .ok row ∧ createSection row = (c4, some e) ∧
        processTable t q = ([headerChunk t, dashBanner] ++ c1 ++ c2 ++ c3 ++ c4, some e))
  ∨ (∃ cols c1 fks c2 idxs c3 row c4, q.describe = .ok cols ∧ colSection cols = (c1, Option.none) ∧
        q.fks = .ok fks ∧ fkSection t fks = (c2, Option.none) ∧ q.indexes = .ok idxs ∧
        idxSection idxs = (c3, Option.none) ∧ q.create = .ok row ∧
        createSection row = (c4, Option.none) ∧
        processTable t q = ([headerChunk t, dashBanner] ++ c1 ++ c2 ++ c3 ++ c4 ++ [eqBanner],
          Option.none)) := by
  cases hd : q.describe with
  | error m => exact Or.inl ⟨m, rfl, by unfold processTable; simp [hd]⟩
  | ok cols =>
    cases hc1 : colSection cols with
    | mk c1 e1 =>
      cases e1 with
      | some e =>
        exact Or.inr (Or.inl ⟨cols, c1, e, rfl, hc1,
          by unfold processTable; simp [hd, hc1]⟩)
      | none =>
        cases hf : q.fks with
        | error m =>
          exact Or.inr (Or.inr (Or.inl ⟨cols, c1, m, rfl, hc1, rfl,
            by unfold processTable; simp [hd, hc1, hf]⟩))
        | ok fks =>
          cases hc2 : fkSection t fks with
          | mk c2 e2 =>
            cases e2 with
            | some e =>
              exact Or.inr (Or.inr (Or.inr (Or.inl ⟨cols, c1, fks, c2, e, rfl, hc1, rfl, hc2,
                by unfold processTable; simp [hd, hc1, hf, hc2]⟩)))
            | none =>
              cases hi : q.indexes with
              | error m =>
                exact Or.inr (Or.inr (Or.inr (Or.inr (Or.inl
                  ⟨cols, c1, fks, c2, m, rfl, hc1, rfl, hc2, rfl,
                    by unfold processTable; simp [hd, hc1, hf, hc2, hi]⟩))))
              | ok idxs =>
                cases hc3 : idxSection idxs with
                | mk c3 e3 =>
                  cases e3 with
                  | some e =>
                    exact Or.inr (Or.inr (Or.inr (Or.inr (Or.inr (Or.inl
                      ⟨cols, c1, fks, c2, idxs, c3, e, rfl, hc1, rfl, hc2, rfl, hc3,
                        by unfold processTable; simp [hd, hc1, hf, hc2, hi, hc3]⟩)))))
                  | none =>
                    cases hcr : q.create with
                    | error m =>
                      exact Or.inr (Or.inr (Or.inr (Or.inr (Or.inr (Or.inr (Or.inl
                        ⟨cols, c1, fks, c2, idxs, c3, m, rfl, hc1, rfl, hc2, rfl, hc3, rfl,
                          by unfold processTable; simp [hd, hc1, hf, hc2, hi, hc3, hcr]⟩))))))
                    | ok row =>
                      cases hc4 : createSection row with
                      | mk c4 e4 =>
                        cases e4 with
                        | some e =>
                          exact Or.inr (Or.inr (Or.inr (Or.inr (Or.inr (Or.inr (Or.inr (Or.inl
                            ⟨cols, c1, fks, c2, idxs, c3, row, c4, e,
                              rfl, hc1, rfl, hc2, rfl, hc3, rfl, hc4,
                              by unfold processTable
                                 simp [hd, hc1, hf, hc2, hi, hc3, hcr, hc4]⟩)))))))
                        | none =>
                          exact Or.inr (Or.inr (Or.inr (Or.inr (Or.inr (Or.inr (Or.inr (Or.inr
                            ⟨cols, c1, fks, c2, idxs, c3, row, c4,
                              rfl, hc1, rfl, hc2, rfl, hc3, rfl, hc4,
                              by unfold processTable
                                 simp [hd, hc1, hf, hc2, hi, hc3, hcr, hc4]⟩)))))))

theorem writeTables_ok (db : String → TableQueries) (ts : List PyVal) (cs : List String)
    (h : writeTables db ts = (cs, Option.none)) :
    cs = (ts.map (fun t => (processTable t (db t.pyStr)).1)).flatten ∧
      ∀ t ∈ ts, (processTable t (db t.pyStr)).2 = Option.none := by
  induction ts generalizing cs with
  | nil =>
    unfold writeTables at h
    cases h
    refine ⟨rfl, ?_⟩
    intro t ht
    cases ht
  | cons t ts ih =>
    unfold writeTables at h
    cases hp : processTable t (db t.pyStr) with
    | mk cs1 e1 =>
      rw [hp] at h
      cases e1 with
      | some e => cases h
      | none =>
        cases hw : writeTables db ts with
        | mk rest e2 =>
          rw [hw] at h
          cases h
          obtain ⟨hrest, hall⟩ := ih rest hw
          constructor
          · simp only [List.map_cons, List.flatten_cons, hp, hrest]
          · intro u hu
            rcases List.mem_cons.mp hu with rfl | hu
            · rw [hp]
            · exact hall u hu

theorem writeTables_all_ok (db : String → TableQueries) (ts : List PyVal)
    (h : ∀ t ∈ ts, (processTable t (db t.pyStr)).2 = Option.none) :
    writeTables db ts = ((ts.map (fun t => (processTable t (db t.pyStr)).1)).flatten,
      Option.none) := by
  induction ts with
  | nil => rfl
  | cons t ts ih =>
    unfold writeTables
    cases hp : processTable t (db t.pyStr) with
    | mk cs1 e1 =>
      have he : e1 = Option.none := by
        have := h t (List.mem_cons_self t ts)
        rw [hp] at this
        exact this
      subst he
      rw [ih (fun u hu => h u (List.mem_cons_of_mem t hu))]
      simp only [List.map_cons, List.flatten_cons, hp]

theorem writeTables_append_abort (db : String → TableQueries) (ts : List PyVal)
    (cs0 : List String) (h0 : writeTables db ts = (cs0, Option.none)) (t : PyVal)
    (csa : List String) (e : PyErr) (ha : processTable t (db t.pyStr) = (csa, some e))
    (rest : List PyVal) :
    writeTables db (ts ++ t :: rest) = (cs0 ++ csa, some e) := by
  induction ts generalizing cs0 with
  | nil =>
    unfold writeTables at h0
    cases h0
    rw [List.nil_append]
    unfold writeTables
    rw [ha]
    simp
  | cons u ts ih =>
    unfold writeTables at h0
    rw [List.cons_append]
    unfold writeTables
    cases hp : processTable u (db u.pyStr) with
    | mk cs1 e1 =>
      rw [hp] at h0
      cases e1 with
      | some e2 => cases h0
      | none =>
        cases hw : writeTables db ts with
        | mk rest2 e2 =>
          rw [hw] at h0
          cases h0
          rw [ih rest2 hw]
          simp [List.append_assoc]

/-!  Helper lemmas for the index grouping dictionary. -/

theorem firstDedupExcl_congr (ns : List PyVal) : ∀ s1 s2, (∀ x, x ∈ s1 ↔ x ∈ s2) →
    firstDedupExcl s1 ns = firstDedupExcl s2 ns := by
  induction ns with
  | nil => intro s1 s2 h; rfl
  | cons n ns ih =>
    intro s1 s2 h
    unfold firstDedupExcl
    by_cases hn : n ∈ s1
    · rw [if_pos hn, if_pos ((h n).mp hn), ih s1 s2 h]
    · rw [if_neg hn, if_neg (fun hc => hn ((h n).mpr hc)), ih (n :: s1) (n :: s2) ?_]
      intro x
      simp only [List.mem_cons]
      rw [h x]

theorem firstDedupExcl_mem (ns : List PyVal) : ∀ seen x,
    x ∈ firstDedupExcl seen ns ↔ x ∈ ns ∧ ¬ x ∈ seen := by
  induction ns with
  | nil =>
    intro seen x
    simp [firstDedupExcl]
  | cons n ns ih =>
    intro seen x
    unfold firstDedupExcl
    by_cases hn : n ∈ seen
    · rw [if_pos hn, ih seen x]
      simp only [List.mem_cons]
      constructor
      · rintro ⟨hx, hs⟩
        exact ⟨Or.inr hx, hs⟩
      · rintro ⟨rfl | hx, hs⟩
        · exact absurd hn hs
        · exact ⟨hx, hs⟩
    · rw [if_neg hn]
      simp only [List.mem_cons, ih (n :: seen) x, List.mem_cons]
      constructor
      · rintro (rfl | ⟨hx, hs⟩)
        · exact ⟨Or.inl rfl, hn⟩
        · exact ⟨Or.inr hx, fun hc => hs (Or.inr hc)⟩
      · rintro ⟨rfl | hx, hs⟩
        · exact Or.inl rfl
        · by_cases hxn : x = n
          · exact Or.inl hxn
          · refine Or.inr ⟨hx, fun hc => hs ?_⟩
            rcases hc with rfl | hc2
            · exact absurd rfl hxn
            · exact hc2

theorem firstDedupExcl_nodup (ns : List PyVal) : ∀ seen, (firstDedupExcl seen ns).Nodup := by
  induction ns with
  | nil => intro seen; exact List.nodup_nil
  | cons n ns ih =>
    intro seen
    unfold firstDedupExcl
    by_cases hn : n ∈ seen
    · rw [if_pos hn]; exact ih seen
    · rw [if_neg hn]
      refine List.nodup_cons.mpr ⟨?_, ih (n :: seen)⟩
      intro hc
      exact ((firstDedupExcl_mem ns (n :: seen) n).mp hc).2 (List.mem_cons_self n seen)

theorem dictAdd_any_true (d : List (PyVal × List IdxRow)) (m : PyVal) (r : IdxRow)
    (h : m ∈ d.map Prod.fst) :
    dictAdd d m r = d.map (fun g => if g.1 = m then (g.1, g.2 ++ [r]) else g) := by
  unfold dictAdd
  rw [if_pos]
  simp only [List.any_eq_true, decide_eq_true_eq]
  obtain ⟨g, hg, hfst⟩ := List.mem_map.mp h
  exact ⟨g, hg, hfst⟩

theorem dictAdd_any_false (d : List (PyVal × List IdxRow)) (m : PyVal) (r : IdxRow)
    (h : ¬ m ∈ d.map Prod.fst) :
    dictAdd d m r = d ++ [(m, [r])] := by
  unfold dictAdd
  rw [if_neg]
  simp only [List.any_eq_true, decide_eq_true_eq, not_exists]
  intro g hg
  exact h (List.mem_map.mpr ⟨g, hg.1, hg.2⟩)

theorem filter_cons_pos {α : Type} (p : α → Prop) [DecidablePred p] (a : α) (l : List α)
    (h : p a) : (a :: l).filter (fun x => p x) = a :: l.filter (fun x => p x) := by
  simp [List.filter_cons, h]

theorem filter_cons_neg {α : Type} (p : α → Prop) [DecidablePred p] (a : α) (l : List α)
    (h : ¬ p a) : (a :: l).filter (fun x => p x) = l.filter (fun x => p x) := by
  simp [List.filter_cons, h]

theorem foldl_dictAdd_spec (ps : List (PyVal × IdxRow)) : ∀ d,
    List.foldl (fun d p => dictAdd d p.1 p.2) d ps =
      d.map (fun g => (g.1, g.2 ++ (ps.filter (fun p => p.1 = g.1)).map Prod.snd))
      ++ (firstDedupExcl (d.map Prod.fst) (ps.map Prod.fst)).map
          (fun n => (n, (ps.filter (fun p => p.1 = n)).map Prod.snd)) := by
  induction ps with
  | nil =>
    intro d
    simp [firstDedupExcl]
  | cons p ps ih =>
    intro d
    rw [List.foldl_cons, ih (dictAdd d p.1 p.2), List.map_cons]
    by_cases hm : p.1 ∈ d.map Prod.fst
    · rw [dictAdd_any_true d p.1 p.2 hm]
      have hkeys : (d.map (fun g => if g.1 = p.1 then (g.1, g.2 ++ [p.2]) else g)).map Prod.fst
          = d.map Prod.fst := by
        rw [List.map_map]
        apply List.map_congr_left
        intro g hg
        by_cases hg1 : g.1 = p.1
        · simp [hg1]
        · simp [hg1]
      rw [hkeys]
      rw [show firstDedupExcl (d.map Prod.fst) (p.1 :: ps.map Prod.fst)
        = firstDedupExcl (d.map Prod.fst) (ps.map Prod.fst) from by
          simp only [firstDedupExcl]
          rw [if_pos hm]]
      congr 1
      · rw [List.map_map]
        apply List.map_congr_left
        intro g hg
        by_cases hg1 : g.1 = p.1
        · rw [Function.comp_apply, if_pos hg1]
          rw [filter_cons_pos (fun x : PyVal × IdxRow => x.1 = g.1) p ps (by rw [hg1]),
            List.map_cons]
          simp
        · rw [Function.comp_apply, if_neg hg1]
          rw [filter_cons_neg (fun x : PyVal × IdxRow => x.1 = g.1) p ps
            (fun hc => hg1 hc.symm)]
      · apply List.map_congr_left
        intro n hn
        have hnm : ¬ p.1 = n := by
          intro hc
          subst hc
          exact ((firstDedupExcl_mem _ _ _).mp hn).2 hm
        rw [filter_cons_neg (fun x : PyVal × IdxRow => x.1 = n) p ps hnm]
    · rw [dictAdd_any_false d p.1 p.2 hm]
      have hkeys2 : ((d ++ [(p.1, [p.2])]).map Prod.fst) = d.map Prod.fst ++ [p.1] := by
        simp
      rw [hkeys2]
      rw [show firstDedupExcl (d.map Prod.fst) (p.1 :: ps.map Prod.fst)
        = p.1 :: firstDedupExcl (p.1 :: d.map Prod.fst) (ps.map Prod.fst) from by
          simp only [firstDedupExcl]
          rw [if_neg hm]]
      rw [firstDedupExcl_congr (ps.map Prod.fst) (d.map Prod.fst ++ [p.1])
        (p.1 :: d.map Prod.fst) (by intro x; simp [List.mem_append, List.mem_cons, or_comm])]
      rw [List.map_append, List.map_cons]
      have hd : d.map (fun g => (g.1, g.2 ++ (ps.filter (fun p => p.1 = g.1)).map Prod.snd))
          = d.map (fun g => (g.1, g.2 ++ ((p :: ps).filter (fun x => x.1 = g.1)).map Prod.snd)) := by
        apply List.map_congr_left
        intro g hg
        have hne : ¬ p.1 = g.1 := by
          intro hc
          exact hm (hc ▸ List.mem_map.mpr ⟨g, hg, rfl⟩)
        rw [filter_cons_neg (fun x : PyVal × IdxRow => x.1 = g.1) p ps hne]
      rw [hd]
      have htail : (firstDedupExcl (p.1 :: d.map Prod.fst) (ps.map Prod.fst)).map
          (fun n => (n, (ps.filter (fun p => p.1 = n)).map Prod.snd))
          = (firstDedupExcl (p.1 :: d.map Prod.fst) (ps.map Prod.fst)).map
            (fun n => (n, ((p :: ps).filter (fun x => x.1 = n)).map Prod.snd)) := by
        apply List.map_congr_left
        intro n hn
        have hnm : ¬ p.1 = n := by
          intro hc
          subst hc
          exact ((firstDedupExcl_mem _ _ _).mp hn).2 (List.mem_cons_self _ _)
        rw [filter_cons_neg (fun x : PyVal × IdxRow => x.1 = n) p ps hnm]
      rw [htail]
      simp [List.filter_cons, List.append_assoc]

theorem groupIdx_eq_foldl (rows : List IdxRow) : ∀ d gs, groupIdx rows d = .ok gs →
    ∃ ns, rows.mapM (fun r => decodeIfBytes r.f2) = .ok ns ∧
      gs = List.foldl (fun d p => dictAdd d p.1 p.2) d (ns.zip rows) := by
  induction rows with
  | nil =>
    intro d gs h
    unfold groupIdx at h
    cases h
    exact ⟨[], rfl, rfl⟩
  | cons r rows ih =>
    intro d gs h
    unfold groupIdx at h
    obtain ⟨n, hn, h2⟩ := bindOk h
    obtain ⟨ns, hns, hgs⟩ := ih (dictAdd d n r) gs h2
    refine ⟨n :: ns, ?_, ?_⟩
    · rw [List.mapM_cons, hn]
      simp only [Bind.bind, Except.bind, hns, pure, Except.pure]
    · rw [List.zip_cons_cons, List.foldl_cons]
      exact hgs

theorem firstDedup_card (ns : List PyVal) :
    (firstDedupExcl [] ns).length = ns.toFinset.card := by
  have hnd := firstDedupExcl_nodup ns []
  have hfin : (firstDedupExcl [] ns).toFinset = ns.toFinset := by
    apply Finset.ext
    intro x
    simp only [List.mem_toFinset]
    rw [firstDedupExcl_mem]
    simp
  rw [← hfin, List.toFinset_card_of_nodup hnd]

theorem processTable_head (t : PyVal) (q : TableQueries) :
    ∃ restc, (processTable t q).1 = headerChunk t :: dashBanner :: restc := by
  unfold processTable
  repeat' split
  all_goals exact ⟨_, rfl⟩

theorem processTable_ok_end (t : PyVal) (q : TableQueries)
    (h : (processTable t q).2 = Option.none) :
    ∃ pre, (processTable t q).1 = pre ++ [eqBanner] := by
  rcases processTable_spec t q with
      ⟨m, hq, hp⟩ | ⟨cols, c1, e, hq, hs, hp⟩ | ⟨cols, c1, m, hq, hs, hf, hp⟩ |
      ⟨cols, c1, fks, c2, e, hq, hs, hf, hs2, hp⟩ |
      ⟨cols, c1, fks, c2, m, hq, hs, hf, hs2, hi, hp⟩ |
      ⟨cols, c1, fks, c2, idxs, c3, e, hq, hs, hf, hs2, hi, hs3, hp⟩ |
      ⟨cols, c1, fks, c2, idxs, c3, m, hq, hs, hf, hs2, hi, hs3, hcr, hp⟩ |
      ⟨cols, c1, fks, c2, idxs, c3, row, c4, e, hq, hs, hf, hs2, hi, hs3, hcr, hs4, hp⟩ |
      ⟨cols, c1, fks, c2, idxs, c3, row, c4, hq, hs, hf, hs2, hi, hs3, hcr, hs4, hp⟩
  · rw [hp]
    exact ⟨[headerChunk t, dashBanner, errChunk t m], rfl⟩
  · rw [hp] at h
    cases h
  · rw [hp]
    exact ⟨[headerChunk t, dashBanner] ++ c1 ++ [errChunk t m], by simp⟩
  · rw [hp] at h
    cases h
  · rw [hp]
    exact ⟨[headerChunk t, dashBanner] ++ c1 ++ c2 ++ [errChunk t m], by simp⟩
  · rw [hp] at h
    cases h
  · rw [hp]
    exact ⟨[headerChunk t, dashBanner] ++ c1 ++ c2 ++ c3 ++ [errChunk t m], by simp⟩
  · rw [hp] at h
    cases h
  · rw [hp]
    exact ⟨[headerChunk t, dashBanner] ++ c1 ++ c2 ++ c3 ++ c4, by simp⟩

theorem mapM_ok_length {α β : Type} (f : α → Except PyErr β) :
    ∀ (l : List α) (ls : List β), l.mapM f = .ok ls → ls.length = l.length := by
  intro l
  induction l with
  | nil =>
    intro ls h
    rw [List.mapM_nil] at h
    simp only [pure, Except.pure, Except.ok.injEq] at h
    rw [← h]
    rfl
  | cons a l ih =>
    intro ls h
    rw [List.mapM_cons] at h
    obtain ⟨b, hb, h2⟩ := bindOk h
    obtain ⟨bs, hbs, h3⟩ := bindOk h2
    simp only [pure, Except.pure, Except.ok.injEq] at h3
    rw [← h3]
    simp [ih bs hbs]

/-- Claim C9: the value normalizer round-trips: it is the identity on an
already decoded text value; applied to the UTF-8 encoding of a text S it
returns S; and the absent value None passes through as the distinct
null marker None, not as the empty string. -/
theorem c9_normalizer_roundtrip :
    (∀ s : String, decodeIfBytes (.str s) = .ok (.str s)) ∧
    (∀ s : String, decodeIfBytes (.bytes (utf8Encode s)) = .ok (.str s)) ∧
    decodeIfBytes PyVal.none = .ok PyVal.none ∧ PyVal.none ≠ PyVal.str "" := by
  refine ⟨fun s => rfl, fun s => ?_, rfl, by decide⟩
  simp [decodeIfBytes, decodeStrE, decodeUtf8_encode s]

/-- Evaluation of claim C9 at a concrete multi-byte text. -/
theorem c9_normalizer_roundtrip_witness :
    decodeIfBytes (.bytes (utf8Encode "Тип")) = .ok (.str "Тип") :=
  c9_normalizer_roundtrip.2.1 "Тип"

/-- Claim C7: for a table whose report carries no error, the column loop
emits exactly one line chunk per row returned by DESCRIBE, and the
columns section is exactly the header, those lines, and a blank line. -/
theorem c7_column_count (cs : List ColRow) (ls : List String)
    (h : writeColLines cs = (ls, Option.none)) :
    ls.length = cs.length ∧
    colSection cs = (("Колонки:\n" :: ls) ++ ["\n"], Option.none) := by
  refine ⟨(writeColLines_ok cs ls h).length_eq.symm, ?_⟩
  unfold colSection
  rw [h]

/-- Evaluation of claim C7 on a concrete two-row DESCRIBE result. -/
theorem c7_column_count_witness :
    writeColLines [⟨.str "id", .str "int", .str "NO", .str "PRI", PyVal.none, .str ""⟩,
        ⟨.str "a", .str "text", .str "YES", .str "", .str "0", .str ""⟩]
      = (["  id int NOT NULL   \n", "  a text NULL  DEFAULT 0 \n"], Option.none) ∧
    (["  id int NOT NULL   \n", "  a text NULL  DEFAULT 0 \n"] : List String).length
      = ([⟨.str "id", .str "int", .str "NO", .str "PRI", PyVal.none, .str ""⟩,
          ⟨.str "a", .str "text", .str "YES", .str "", .str "0", .str ""⟩] : List ColRow).length :=
  ⟨by decide,
    (c7_column_count [⟨.str "id", .str "int", .str "NO", .str "PRI", PyVal.none, .str ""⟩,
        ⟨.str "a", .str "text", .str "YES", .str "", .str "0", .str ""⟩]
      ["  id int NOT NULL   \n", "  a text NULL  DEFAULT 0 \n"] (by decide)).1⟩

/-- Claim C10: every per-table block starts with the table header line
followed by the 50-dash banner, because both are written before the
first catalog query; in particular a table whose DESCRIBE query fails
still gets its header and banner before the error block. -/
theorem c10_header_first (t : PyVal) (q : TableQueries) :
    (∃ restc, (processTable t q).1 = headerChunk t :: dashBanner :: restc) ∧
    (∀ m, q.describe = .error m →
      processTable t q = ([headerChunk t, dashBanner, errChunk t m, eqBanner], Option.none)) := by
  refine ⟨processTable_head t q, ?_⟩
  intro m hm
  unfold processTable
  rw [hm]
  rfl

/-- Evaluation of claim C10 on a concrete failing table. -/
theorem c10_header_first_witness :
    processTable (.str "users")
      { describe := .error "gone", fks := .ok [], indexes := .ok [],
        create := .ok ⟨.str "c"⟩ }
      = ([headerChunk (.str "users"), dashBanner, errChunk (.str "users") "gone", eqBanner],
        Option.none) :=
  (c10_header_first (.str "users") _).2 "gone" rfl

/-- Claim C1 counterexample: DESCRIBE can report the key role as already
decoded text (the driver decodes when the connection negotiates it), and
then the script's guard isinstance(column[3], bytes) is false, so the
key-role token renders empty instead of carrying the key role: for the
row (id, int, NO, PRI-as-text, no default, no extra) the emitted line
does not contain PRI at all. -/
theorem c1_counterexample :
    colLine ⟨.str "id", .str "int", .str "NO", .str "PRI", PyVal.none, .str ""⟩
      = .ok "  id int NOT NULL   \n" ∧
    ¬ "PRI".data <:+: "  id int NOT NULL   \n".data := by
  constructor
  · rfl
  · decide

/-- Claim C1 (amended): the emitted column line is the two-space indent,
then name, type, null token, key token, default token and extra token
joined by single spaces with empty tokens keeping their field position,
and a trailing newline; the null token is NOT NULL exactly when the
raw Null cell is the text NO; the default token is absent (empty) when
the raw Default cell is None and otherwise DEFAULT followed by the
decoded value; the key-role and extra-attribute tokens are the decoded
bytes for a non-empty byte-sequence cell and the empty string
otherwise - in particular a key role delivered as text renders empty. -/
theorem c1_column_line_format (c : ColRow) (nm ty : PyVal) (kt dt et : String)
    (h0 : decodeIfBytes c.f0 = .ok nm) (h1 : decodeIfBytes c.f1 = .ok ty)
    (h3 : keyTokE c.f3 = .ok kt) (h4 : defTokE c.f4 = .ok dt)
    (h5 : extraTokE c.f5 = .ok et) :
    colLine c = .ok ("  " ++ nm.pyStr ++ " " ++ ty.pyStr ++ " " ++ nullTok c.f2 ++ " "
      ++ kt ++ " " ++ dt ++ " " ++ et ++ "\n") ∧
    (nullTok c.f2 = "NOT NULL" ↔ c.f2 = .str "NO") ∧
    (c.f4 = PyVal.none → dt = "") ∧
    (∀ s, c.f4 = .str s → dt = "DEFAULT " ++ s) ∧
    (∀ s, c.f3 = .str s → kt = "") ∧
    (∀ b, c.f3 = .bytes b → b ≠ [] → decodeStrE b = .ok kt) := by
  refine ⟨colLine_eq c nm ty kt dt et h0 h1 h3 h4 h5, ?_, ?_, ?_, ?_, ?_⟩
  · unfold nullTok
    constructor
    · intro hn
      by_cases hc : c.f2 = .str "NO"
      · exact hc
      · rw [if_neg hc] at hn
        exact absurd hn (by decide)
    · intro hc
      rw [if_pos hc]
  · intro hn
    unfold defTokE at h4
    rw [if_pos hn] at h4
    cases h4
    rfl
  · intro s hs
    unfold defTokE at h4
    rw [if_neg (by rw [hs]; intro hc; cases hc)] at h4
    rw [hs] at h4
    simp only [decodeIfBytes, Functor.map, Except.map] at h4
    cases h4
    rfl
  · intro s hs
    unfold keyTokE at h3
    rw [hs] at h3
    cases h3
    rfl
  · intro b hb hne
    unfold keyTokE at h3
    rw [hb] at h3
    simp only [PyVal.truthy] at h3
    rw [if_pos (by simpa using hne)] at h3
    exact h3

/-- Evaluation of amended claim C1 on a row whose key role arrives as
the byte sequence PRI: the token then does carry PRI. -/
theorem c1_column_line_format_witness :
    decodeIfBytes (PyVal.str "id") = .ok (.str "id") ∧
    keyTokE (.bytes [80, 82, 73]) = .ok "PRI" ∧
    colLine ⟨.str "id", .str "int", .str "NO", .bytes [80, 82, 73], PyVal.none, .str ""⟩
      = .ok ("  " ++ (PyVal.str "id").pyStr ++ " " ++ (PyVal.str "int").pyStr ++ " "
        ++ nullTok (.str "NO") ++ " " ++ "PRI" ++ " " ++ "" ++ " " ++ "" ++ "\n") :=
  ⟨by decide, by decide,
    (c1_column_line_format ⟨.str "id", .str "int", .str "NO", .bytes [80, 82, 73],
      PyVal.none, .str ""⟩ (.str "id") (.str "int") "PRI" "" ""
      (by decide) (by decide) (by decide) (by decide) (by decide)).1⟩

/-- Claim C8 counterexample: the emitted foreign-key line is not
byte-for-byte the format constraint: table.col -> refTable.refCol - the
script writes a two-space indent before it (and the newline after). -/
theorem c8_counterexample :
    fkLine (.str "users") ⟨.str "org_id", .str "fk_org", .str "orgs", .str "id"⟩
      = .ok "  fk_org: users.org_id -> orgs.id\n" ∧
    "  fk_org: users.org_id -> orgs.id\n" ≠ specFkLine "fk_org" "users" "org_id" "orgs" "id" ∧
    "  fk_org: users.org_id -> orgs.id\n"
      = "  " ++ specFkLine "fk_org" "users" "org_id" "orgs" "id" ++ "\n" := by
  refine ⟨rfl, by decide, by decide⟩

/-- Claim C8 (amended): foreign-key lines are emitted in the same
relative order as the query returns the rows, one line per row, and
each line is the two-space indent, then exactly
constraint: table.col -> refTable.refCol, then the newline. -/
theorem c8_fk_lines (t : PyVal) (rs : List FkRow) (ls : List String)
    (h : writeFkLines t rs = (ls, Option.none)) :
    ls.length = rs.length ∧
    List.Forall₂ (fun r l => ∃ cn cstr rt rc,
      decodeIfBytes r.f0 = .ok cn ∧ decodeIfBytes r.f1 = .ok cstr ∧
      decodeIfBytes r.f2 = .ok rt ∧ decodeIfBytes r.f3 = .ok rc ∧
      l = "  " ++ specFkLine cstr.pyStr t.pyStr cn.pyStr rt.pyStr rc.pyStr ++ "\n") rs ls := by
  have hf := writeFkLines_ok t rs ls h
  refine ⟨hf.length_eq.symm, hf.imp ?_⟩
  intro r l hr
  obtain ⟨cn, cstr, rt, rc, h0, h1, h2, h3, hl⟩ := fkLine_inv t r l hr
  refine ⟨cn, cstr, rt, rc, h0, h1, h2, h3, ?_⟩
  rw [hl]
  unfold specFkLine
  simp only [String.append_assoc]

/-- Evaluation of amended claim C8 on a concrete single foreign key. -/
theorem c8_fk_lines_witness :
    writeFkLines (.str "users") [⟨.str "org_id", .str "fk_org", .str "orgs", .str "id"⟩]
      = (["  fk_org: users.org_id -> orgs.id\n"], Option.none) ∧
    (["  fk_org: users.org_id -> orgs.id\n"] : List String).length
      = [(⟨.str "org_id", .str "fk_org", .str "orgs", .str "id"⟩ : FkRow)].length :=
  ⟨by decide,
    (c8_fk_lines (.str "users") [⟨.str "org_id", .str "fk_org", .str "orgs", .str "id"⟩]
      ["  fk_org: users.org_id -> orgs.id\n"] (by decide)).1⟩

theorem isErrChunk_headerChunk (t : PyVal) : isErrChunk (headerChunk t) = false := by
  apply isErrChunk_false_head
  unfold headerChunk
  rw [String.data_append, String.data_append,
    show ("ТАБЛИЦА: " : String).data = 'Т' :: "АБЛИЦА: ".data from rfl]
  rw [List.cons_append, List.cons_append]
  intro hc
  cases hc

theorem filter_isErr_nil (ls : List String) (h : ∀ l ∈ ls, isErrChunk l = false) :
    ls.filter (fun c => isErrChunk c) = [] := by
  apply List.filter_eq_nil_iff.mpr
  intro a ha
  simp [h a ha]

/-- Claim C2 counterexample: a table whose DESCRIBE succeeds and whose
foreign-key query fails still emits the Columns data section before its
error block, contradicting that no data sections are emitted for a
failed table. -/
theorem c2_counterexample :
    processTable (.str "bad")
      { describe := .ok [⟨.str "id", .str "int", .str "NO", .str "PRI", PyVal.none, .str ""⟩],
        fks := .error "boom", indexes := .ok [], create := .ok ⟨.str "c"⟩ }
      = (["ТАБЛИЦА: bad\n", dashBanner, "Колонки:\n", "  id int NOT NULL   \n", "\n",
          errChunk (.str "bad") "boom", eqBanner], Option.none) ∧
    "Колонки:\n" ∈ (processTable (.str "bad")
      { describe := .ok [⟨.str "id", .str "int", .str "NO", .str "PRI", PyVal.none, .str ""⟩],
        fks := .error "boom", indexes := .ok [], create := .ok ⟨.str "c"⟩ }).1 := by
  refine ⟨by decide, by decide⟩

/-- Claim C2 (amended): a table that reaches a failing catalog query
(and is not aborted earlier by a decode failure) emits exactly one
error block - the chunks before it are data chunks, none of which is an
error block, and the block closes with the banner; and the loop
continues: the table contributes its chunks and the remaining tables
are processed exactly as they would be on their own.  Data sections
of queries completed before the failure remain in the output; only a
first-query failure produces zero data sections (claim C10 gives that
block shape). -/
theorem c2_query_error_isolation (t : PyVal) (q : TableQueries) (cs : List String)
    (hq : queryFails q = true) (h : processTable t q = (cs, Option.none)) :
    (∃ pre m, cs = pre ++ [errChunk t m, eqBanner] ∧
      pre.filter (fun c => isErrChunk c) = [] ∧ isErrChunk (errChunk t m) = true) ∧
    (∀ db ts rest e, db t.pyStr = q → writeTables db ts = (rest, e) →
      writeTables db (t :: ts) = (cs ++ rest, e)) := by
  constructor
  · rcases processTable_spec t q with
        ⟨m, hqd, hp⟩ | ⟨cols, c1, e, hqd, hs, hp⟩ | ⟨cols, c1, m, hqd, hs, hf, hp⟩ |
        ⟨cols, c1, fks, c2, e, hqd, hs, hf, hs2, hp⟩ |
        ⟨cols, c1, fks, c2, m, hqd, hs, hf, hs2, hi, hp⟩ |
        ⟨cols, c1, fks, c2, idxs, c3, e, hqd, hs, hf, hs2, hi, hs3, hp⟩ |
        ⟨cols, c1, fks, c2, idxs, c3, m, hqd, hs, hf, hs2, hi, hs3, hcr, hp⟩ |
        ⟨cols, c1, fks, c2, idxs, c3, row, c4, e, hqd, hs, hf, hs2, hi, hs3, hcr, hs4, hp⟩ |
        ⟨cols, c1, fks, c2, idxs, c3, row, c4, hqd, hs, hf, hs2, hi, hs3, hcr, hs4, hp⟩
    · rw [hp] at h
      cases h
      refine ⟨[headerChunk t, dashBanner], m, rfl, ?_, isErrChunk_errChunk t m⟩
      apply filter_isErr_nil
      intro l hl
      rcases List.mem_cons.mp hl with rfl | hl
      · exact isErrChunk_headerChunk t
      rcases List.mem_singleton.mp hl with rfl
      decide
    · rw [hp] at h
      cases h
    · rw [hp] at h
      cases h
      refine ⟨[headerChunk t, dashBanner] ++ c1, m, by simp, ?_, isErrChunk_errChunk t m⟩
      have hhd : List.filter (fun c => isErrChunk c) [headerChunk t, dashBanner] = [] := by
        apply filter_isErr_nil
        intro l hl
        rcases List.mem_cons.mp hl with rfl | hl
        · exact isErrChunk_headerChunk t
        rcases List.mem_singleton.mp hl with rfl
        decide
      rw [List.filter_append, hhd,
        filter_isErr_nil c1 (fun l hl => colSection_noErr cols l (by rw [hs]; exact hl))]
      rfl
    · rw [hp] at h
      cases h
    · rw [hp] at h
      cases h
      refine ⟨[headerChunk t, dashBanner] ++ c1 ++ c2, m, by simp, ?_, isErrChunk_errChunk t m⟩
      have hhd : List.filter (fun c => isErrChunk c) [headerChunk t, dashBanner] = [] := by
        apply filter_isErr_nil
        intro l hl
        rcases List.mem_cons.mp hl with rfl | hl
        · exact isErrChunk_headerChunk t
        rcases List.mem_singleton.mp hl with rfl
        decide
      rw [List.filter_append, List.filter_append, hhd,
        filter_isErr_nil c1 (fun l hl => colSection_noErr cols l (by rw [hs]; exact hl)),
        filter_isErr_nil c2 (fun l hl => fkSection_noErr t fks l (by rw [hs2]; exact hl))]
      rfl
    · rw [hp] at h
      cases h
    · rw [hp] at h
      cases h
      refine ⟨[headerChunk t, dashBanner] ++ c1 ++ c2 ++ c3, m, by simp, ?_,
        isErrChunk_errChunk t m⟩
      have hhd : List.filter (fun c => isErrChunk c) [headerChunk t, dashBanner] = [] := by
        apply filter_isErr_nil
        intro l hl
        rcases List.mem_cons.mp hl with rfl | hl
        · exact isErrChunk_headerChunk t
        rcases List.mem_singleton.mp hl with rfl
        decide
      rw [List.filter_append, List.filter_append, List.filter_append, hhd,
        filter_isErr_nil c1 (fun l hl => colSection_noErr cols l (by rw [hs]; exact hl)),
        filter_isErr_nil c2 (fun l hl => fkSection_noErr t fks l (by rw [hs2]; exact hl)),
        filter_isErr_nil c3 (fun l hl => idxSection_noErr idxs l (by rw [hs3]; exact hl))]
      rfl
    · rw [hp] at h
      cases h
    · unfold queryFails at hq
      rw [hqd, hf, hi, hcr] at hq
      cases hq
  · intro db ts rest e hdb hw
    conv_lhs => unfold writeTables
    rw [hdb, h, hw]

/-- Evaluation of amended claim C2 on a table whose DESCRIBE fails. -/
theorem c2_query_error_isolation_witness :
    queryFails { describe := .error "boom", fks := .ok [], indexes := .ok [],
                 create := .ok ⟨.str "c"⟩ } = true ∧
    (∃ pre m, ([headerChunk (.str "w"), dashBanner, errChunk (.str "w") "boom", eqBanner]
          : List String)
        = pre ++ [errChunk (.str "w") m, eqBanner] ∧
      pre.filter (fun c => isErrChunk c) = [] ∧ isErrChunk (errChunk (.str "w") m) = true) :=
  ⟨by decide,
    (c2_query_error_isolation (.str "w")
      ⟨.error "boom", .ok [], .ok [], .ok ⟨.str "c"⟩⟩
      [headerChunk (.str "w"), dashBanner, errChunk (.str "w") "boom", eqBanner]
      (by decide) (by decide)).1⟩

/-- Claim C3 counterexample: a byte cell that is not valid UTF-8 in the
first table aborts the whole run - no error block is written for that
table, the second table is never processed, and the uncaught exception
escapes - rather than being handled like a query error. -/
theorem c3_counterexample :
    runScript { showTables := .ok [.str "a", .str "b"],
                db := fun s => if s = "a" then
                    ⟨.ok [⟨.bytes [255], .str "t", .str "NO", .str "", PyVal.none, .str ""⟩],
                      .ok [], .ok [], .ok ⟨.str "c"⟩⟩
                  else ⟨.ok [], .ok [], .ok [], .ok ⟨.str "c"⟩⟩ }
      = { fileAcquired := true, fileReleased := true,
          output := ["СТРУКТУРА БАЗЫ ДАННЫХ\n", eqBanner, "ТАБЛИЦА: a\n", dashBanner,
                     "Колонки:\n"],
          cursorClosed := false, connClosed := false,
          exc := some (.unicodeDecodeError [255]) } ∧
    ¬ "ТАБЛИЦА: b\n" ∈ (["СТРУКТУРА БАЗЫ ДАННЫХ\n", eqBanner, "ТАБЛИЦА: a\n", dashBanner,
        "Колонки:\n"] : List String) ∧
    (["СТРУКТУРА БАЗЫ ДАННЫХ\n", eqBanner, "ТАБЛИЦА: a\n", dashBanner,
        "Колонки:\n"] : List String).filter (fun c => isErrChunk c) = [] := by
  refine ⟨by decide, by decide, by decide⟩

/-- Claim C3 (amended): a UTF-8 decoding failure is NOT treated like a
query error: the per-table handler catches only database errors, so the
exception aborts the entire run - the failing table gets no error
block (only the chunks already written stay in the file), the tables
after it are never processed, and the cursor and connection are left
unclosed; only the output file is closed by the with block. -/
theorem c3_decode_abort (inp : ScriptInput) (raw ts : List PyVal) (t : PyVal)
    (rest : List PyVal) (cs0 cs : List String) (e : PyErr)
    (hshow : inp.showTables = .ok raw) (hnorm : normTables raw = .ok (ts ++ t :: rest))
    (hts : writeTables inp.db ts = (cs0, Option.none))
    (ht : processTable t (inp.db t.pyStr) = (cs, some e)) :
    runScript inp = { fileAcquired := true, fileReleased := true,
                      output := titleChunks ++ cs0 ++ cs, cursorClosed := false,
                      connClosed := false, exc := some e } := by
  unfold runScript
  rw [hshow]
  dsimp only
  rw [hnorm]
  dsimp only
  rw [writeTables_append_abort inp.db ts cs0 hts t cs e ht rest]
  simp [List.append_assoc]

/-- Evaluation of amended claim C3 on a concrete aborting run. -/
theorem c3_decode_abort_witness :
    runScript { showTables := .ok [.str "a", .str "b"],
                db := fun _ =>
                  ⟨.ok [⟨.bytes [255], .str "t", .str "NO", .str "", PyVal.none, .str ""⟩],
                    .ok [], .ok [], .ok ⟨.str "c"⟩⟩ }
      = { fileAcquired := true, fileReleased := true,
          output := titleChunks ++ [] ++ ["ТАБЛИЦА: a\n", dashBanner, "Колонки:\n"],
          cursorClosed := false, connClosed := false,
          exc := some (.unicodeDecodeError [255]) } :=
  c3_decode_abort _ [.str "a", .str "b"] [] (.str "a") [.str "b"] []
    ["ТАБЛИЦА: a\n", dashBanner, "Колонки:\n"] (.unicodeDecodeError [255])
    rfl (by decide) (by decide) (by decide)

/-- Claim C5: a run that completes produces the title and opening
banner followed by exactly one block per enumerated table in
enumeration order; every block begins with the table header and ends
with the banner (failed tables included, their failure marked inline by
the error block of their own block); a schema with zero tables yields
only the title and the opening banner. -/
theorem c5_document_structure (inp : ScriptInput)
    (hok : (runScript inp).exc = Option.none) :
    ∃ raw tables, inp.showTables = .ok raw ∧ normTables raw = .ok tables ∧
      (runScript inp).output = titleChunks ++
        (tables.map (fun t => (processTable t (inp.db t.pyStr)).1)).flatten ∧
      (∀ t ∈ tables, ∃ restc, (processTable t (inp.db t.pyStr)).1
        = headerChunk t :: dashBanner :: restc) ∧
      (∀ t ∈ tables, ∃ pre, (processTable t (inp.db t.pyStr)).1 = pre ++ [eqBanner]) ∧
      (tables = [] → (runScript inp).output = titleChunks) := by
  cases hst : inp.showTables with
  | error m =>
    have hrun : runScript inp = { fileAcquired := false, fileReleased := false, output := [],
                                  cursorClosed := false, connClosed := false,
                                  exc := some (.dbError m) } := by
      unfold runScript
      rw [hst]
    rw [hrun] at hok
    simp at hok
  | ok raw =>
    cases hnt : normTables raw with
    | error e =>
      have hrun : runScript inp = { fileAcquired := false, fileReleased := false,
                                    output := [], cursorClosed := false, connClosed := false,
                                    exc := some e } := by
        unfold runScript
        rw [hst]
        dsimp only
        rw [hnt]
      rw [hrun] at hok
      simp at hok
    | ok tables =>
      cases hw : writeTables inp.db tables with
      | mk chunks e =>
        cases e with
        | some e1 =>
          have hrun : runScript inp = { fileAcquired := true, fileReleased := true,
                                        output := titleChunks ++ chunks,
                                        cursorClosed := false, connClosed := false,
                                        exc := some e1 } := by
            unfold runScript
            rw [hst]
            dsimp only
            rw [hnt]
            dsimp only
            rw [hw]
          rw [hrun] at hok
          simp at hok
        | none =>
          have hrun : runScript inp = { fileAcquired := true, fileReleased := true,
                                        output := titleChunks ++ chunks,
                                        cursorClosed := true, connClosed := true,
                                        exc := Option.none } := by
            unfold runScript
            rw [hst]
            dsimp only
            rw [hnt]
            dsimp only
            rw [hw]
          obtain ⟨hflat, hall⟩ := writeTables_ok inp.db tables chunks hw
          refine ⟨raw, tables, rfl, hnt, ?_, ?_, ?_, ?_⟩
          · rw [hrun, ← hflat]
          · intro t ht
            exact processTable_head t _
          · intro t ht
            exact processTable_ok_end t _ (hall t ht)
          · intro hnil
            subst hnil
            simp only [List.map_nil, List.flatten_nil] at hflat
            subst hflat
            rw [hrun]
            simp

/-- Evaluation of claim C5 on a schema with zero tables: only title and
opening banner. -/
theorem c5_document_structure_witness :
    (runScript { showTables := .ok ([] : List PyVal),
                 db := fun _ => ⟨.ok [], .ok [], .ok [], .ok ⟨.str "c"⟩⟩ }).output
      = titleChunks := by
  obtain ⟨raw, tables, h1, h2, h3, h4, h5, h6⟩ :=
    c5_document_structure { showTables := .ok ([] : List PyVal),
                            db := fun _ => ⟨.ok [], .ok [], .ok [], .ok ⟨.str "c"⟩⟩ } (by decide)
  have hraw : raw = [] := by
    injection h1 with h
    exact h.symm
  subst hraw
  have htab : tables = [] := by
    rw [show normTables [] = .ok [] from rfl] at h2
    injection h2 with h
    exact h.symm
  exact h6 htab

/-- Claim C6 counterexample: on the exit path of an uncaught decode
failure the with block closes the output file, but cursor.close() and
conn.close() never run - the database session is not released on this
exit path, contradicting guaranteed try/finally-like release. -/
theorem c6_counterexample :
    runScript { showTables := .ok [.str "a"],
                db := fun _ => ⟨.ok [⟨.bytes [192], .str "t", .str "NO", .str "",
                  PyVal.none, .str ""⟩], .ok [], .ok [], .ok ⟨.str "c"⟩⟩ }
      = { fileAcquired := true, fileReleased := true,
          output := ["СТРУКТУРА БАЗЫ ДАННЫХ\n", eqBanner, "ТАБЛИЦА: a\n", dashBanner,
                     "Колонки:\n"],
          cursorClosed := false, connClosed := false,
          exc := some (.unicodeDecodeError [192]) } := by decide

/-- Claim C6 (amended): the output file is released exactly when it was
acquired (the with statement guarantees release on every path on which
the open succeeded); the cursor and the connection are closed exactly
on the normal-completion path - they are plain trailing statements, not
a finally block, so every aborted run leaves the session unreleased. -/
theorem c6_resource_release (inp : ScriptInput) :
    ((runScript inp).fileReleased = (runScript inp).fileAcquired) ∧
    ((runScript inp).exc = Option.none →
      (runScript inp).cursorClosed = true ∧ (runScript inp).connClosed = true) ∧
    ((runScript inp).exc ≠ Option.none →
      (runScript inp).cursorClosed = false ∧ (runScript inp).connClosed = false) := by
  cases hst : inp.showTables with
  | error m =>
    have hrun : runScript inp = { fileAcquired := false, fileReleased := false, output := [],
                                  cursorClosed := false, connClosed := false,
                                  exc := some (.dbError m) } := by
      unfold runScript
      rw [hst]
    rw [hrun]
    simp
  | ok raw =>
    cases hnt : normTables raw with
    | error e =>
      have hrun : runScript inp = { fileAcquired := false, fileReleased := false,
                                    output := [], cursorClosed := false, connClosed := false,
                                    exc := some e } := by
        unfold runScript
        rw [hst]
        dsimp only
        rw [hnt]
      rw [hrun]
      simp
    | ok tables =>
      cases hw : writeTables inp.db tables with
      | mk chunks e =>
        cases e with
        | some e1 =>
          have hrun : runScript inp = { fileAcquired := true, fileReleased := true,
                                        output := titleChunks ++ chunks,
                                        cursorClosed := false, connClosed := false,
                                        exc := some e1 } := by
            unfold runScript
            rw [hst]
            dsimp only
            rw [hnt]
            dsimp only
            rw [hw]
          rw [hrun]
          simp
        | none =>
          have hrun : runScript inp = { fileAcquired := true, fileReleased := true,
                                        output := titleChunks ++ chunks,
                                        cursorClosed := true, connClosed := true,
                                        exc := Option.none } := by
            unfold runScript
            rw [hst]
            dsimp only
            rw [hnt]
            dsimp only
            rw [hw]
          rw [hrun]
          simp

/-- Evaluation of amended claim C6 on a normally completing run. -/
theorem c6_resource_release_witness :
    ((runScript { showTables := .ok ([] : List PyVal),
                  db := fun _ => ⟨.ok [], .ok [], .ok [], .ok ⟨.str "c"⟩⟩ }).fileReleased
      = (runScript { showTables := .ok ([] : List PyVal),
                     db := fun _ => ⟨.ok [], .ok [], .ok [], .ok ⟨.str "c"⟩⟩ }).fileAcquired) ∧
    ((runScript { showTables := .ok ([] : List PyVal),
                  db := fun _ => ⟨.ok [], .ok [], .ok [], .ok ⟨.str "c"⟩⟩ }).cursorClosed = true ∧
      (runScript { showTables := .ok ([] : List PyVal),
                   db := fun _ => ⟨.ok [], .ok [], .ok [], .ok ⟨.str "c"⟩⟩ }).connClosed = true) :=
  ⟨(c6_resource_release _).1,
    (c6_resource_release { showTables := .ok ([] : List PyVal),
                           db := fun _ => ⟨.ok [], .ok [], .ok [], .ok ⟨.str "c"⟩⟩ }).2.1
      (by decide)⟩

/-- Claim C4: given that the index grouping loop succeeds, the groups
are keyed by the decoded index names in first-occurrence input order
(not sorted), there are exactly as many groups as distinct names, each
group's bucket is the subsequence of input rows carrying that name (so
participating columns are rendered in input order), and the rendering
loop emits exactly one line per group, whose uniqueness token is
computed from the first row of the bucket. -/
theorem c4_index_grouping (rows : List IdxRow) (gs : List (PyVal × List IdxRow))
    (h : groupIdx rows [] = .ok gs) :
    ∃ ns, rows.mapM (fun r => decodeIfBytes r.f2) = .ok ns ∧
      gs = (firstDedupExcl [] ns).map
        (fun n => (n, ((ns.zip rows).filter (fun p => p.1 = n)).map Prod.snd)) ∧
      gs.map Prod.fst = firstDedupExcl [] ns ∧
      gs.length = ns.toFinset.card ∧
      (∀ ls, writeIdxLines gs = (ls, Option.none) →
        ls.length = gs.length ∧
        List.Forall₂ (fun (g : PyVal × List IdxRow) l => ∃ r0 rs cols, g.2 = r0 :: rs ∧
          g.2.mapM (fun r => PyVal.pyStr <$> decodeIfBytes r.f4) = .ok cols ∧
          l = "  " ++ g.1.pyStr ++ " " ++ (if !r0.f1.truthy then "UNIQUE" else "")
            ++ ": (" ++ String.intercalate ", " cols ++ ")\n") gs ls) := by
  obtain ⟨ns, hns, hgs⟩ := groupIdx_eq_foldl rows [] gs h
  have hlen : ns.length = rows.length := mapM_ok_length _ rows ns hns
  rw [foldl_dictAdd_spec] at hgs
  simp only [List.map_nil, List.nil_append] at hgs
  have hfst : (ns.zip rows).map Prod.fst = ns := List.map_fst_zip ns rows (by omega)
  rw [hfst] at hgs
  refine ⟨ns, hns, hgs, ?_, ?_, ?_⟩
  · rw [hgs, List.map_map]
    have hcomp : (Prod.fst ∘ fun n : PyVal =>
        (n, ((ns.zip rows).filter (fun p => p.1 = n)).map Prod.snd)) = id := by
      funext n
      rfl
    rw [hcomp, List.map_id]
  · rw [hgs, List.length_map, firstDedup_card]
  · intro ls hls
    have hfa := writeIdxLines_ok gs ls hls
    refine ⟨hfa.length_eq.symm, hfa.imp ?_⟩
    intro g l hgl
    obtain ⟨r0, rs, cols, hb, hc, hl⟩ := idxLine_inv g.1 g.2 l hgl
    exact ⟨r0, rs, cols, hb, hc, hl⟩

/-- Evaluation of claim C4 on interleaved index rows b, a, b: two
groups in first-occurrence order b then a. -/
theorem c4_index_grouping_witness :
    ([((.str "b" : PyVal), [⟨.int 1, .str "b", .str "x"⟩, ⟨.int 1, .str "b", .str "z"⟩]),
      ((.str "a" : PyVal), [⟨.int 0, .str "a", .str "y"⟩])] : List (PyVal × List IdxRow)).map
        Prod.fst
      = firstDedupExcl [] [.str "b", .str "a", .str "b"] := by
  obtain ⟨ns, hns, hgs, hfst, hcard, hrender⟩ :=
    c4_index_grouping [⟨.int 1, .str "b", .str "x"⟩, ⟨.int 0, .str "a", .str "y"⟩,
      ⟨.int 1, .str "b", .str "z"⟩]
      [(.str "b", [⟨.int 1, .str "b", .str "x"⟩, ⟨.int 1, .str "b", .str "z"⟩]),
       (.str "a", [⟨.int 0, .str "a", .str "y"⟩])] (by decide)
  have hn : ns = [.str "b", .str "a", .str "b"] := by
    have hmr : ([⟨.int 1, .str "b", .str "x"⟩, ⟨.int 0, .str "a", .str "y"⟩,
        ⟨.int 1, .str "b", .str "z"⟩] : List IdxRow).mapM (fun r => decodeIfBytes r.f2)
        = .ok [.str "b", .str "a", .str "b"] := by decide
    rw [hmr] at hns
    injection hns with h
    exact h.symm
  subst hn
  exact hfst
